import Mathlib

/-!
Verification development for the InvoiceAI extraction pipeline.

The definitions below are a shallow embedding of `invoice_processor.py` and
`invoice_processor_optimized.py`: regular-expression based string
normalization is embedded as explicit character-list processing that mirrors
the leftmost / greedy-with-backtracking semantics of the specific Python
patterns used by the source, the rate limiters are embedded as explicit
state-passing functions over rational timestamps, and the orchestration code
(`process_with_gemini`, `process_invoice`) is embedded as a deterministic
function of an environment record that stands for the external effects
(PDF text extraction, layout identification, the AI service responses).
-/

namespace InvoiceAI

/-! ### Character class helpers

Python character classes used by the source's regular expressions. -/

/-- Characters kept by the date pre-cleaning `re.sub` with the class `[^0-9.\\/\\-]` replacing by a space:
digits, hyphen, slash, dot and backslash.  Every other character is replaced
by a space before the date patterns are tried. -/
def isDateKeep (c : Char) : Bool :=
  c.isDigit || c = '-' || c = '/' || c = '.' || c = '\\'

/-- Python whitespace as stripped by `str.strip()` and matched by `\s`. -/
def isPySpace (c : Char) : Bool :=
  c = ' ' || c = '\t' || c = '\n' || c = '\r' || c = '\x0b' || c = '\x0c'

/-- Separators accepted between date components: hyphen, slash, dot, backslash. -/
def isSep (c : Char) : Bool :=
  c = '-' || c = '/' || c = '.' || c = '\\'

/-- The class `[,\s]` used between the month name and the year. -/
def isCommaSpace (c : Char) : Bool :=
  c = ',' || isPySpace c

/-- The character class kept by `process_invoice`'s numeric cleanup
`re.sub(r'[^0-9.,₹$]', '', v)`. -/
def isMoneyChar (c : Char) : Bool :=
  c.isDigit || c = '.' || c = ',' || c = '₹' || c = '$'

/-- Replace every character outside the date-keep class by a space
(`re.sub` with the class `[^0-9.\\/\\-]` replacing by a space). -/
def subDateChars (l : List Char) : List Char :=
  l.map (fun c => if isDateKeep c then c else ' ')

/-- Python `str.strip()`: drop whitespace from both ends. -/
def pyStrip (l : List Char) : List Char :=
  ((l.dropWhile isPySpace).reverse.dropWhile isPySpace).reverse

/-- String-level `str.strip()`. -/
def pyStripStr (s : String) : String :=
  String.mk (pyStrip s.data)

/-- Numeric value of a list of decimal digit characters, as computed by
Python's `int()` on a digit-only string. -/
def natOfDigits (l : List Char) : ℕ :=
  l.foldl (fun acc c => acc * 10 + (c.toNat - 48)) 0

/-- Decimal digit characters of a natural number, auxiliary with fuel. -/
def natToCharsAux : ℕ → ℕ → List Char
  | 0, _ => []
  | fuel + 1, n =>
    if n = 0 then [] else natToCharsAux fuel (n / 10) ++ [Char.ofNat (n % 10 + 48)]

/-- Decimal digit characters of a natural number, as produced by Python's
`str()` on a nonnegative integer. -/
def natToChars (n : ℕ) : List Char :=
  if n = 0 then ['0'] else natToCharsAux n n

/-! ### Date normalization (`post_process_extraction`, invoice_date branch)

The source tries three `re.search` patterns in order on the pre-cleaned and
stripped date string, and rewrites the field from the first match:

  1. day(1-2 digits) SEP month(1-2 digits) SEP year(2-4 digits)
  2. year(2-4 digits) SEP month(1-2 digits) SEP day(1-2 digits)
  3. day(1-2 digits) optional ordinal suffix, spaces, month name, comma or spaces, year(2-4 digits)

Each `matchP*` function below implements the anchored match of one pattern at
the start of a character list, reproducing the greedy-with-backtracking
semantics of the Python engine for these specific patterns (for a bounded
greedy digit group followed by a disjoint character class, backtracking inside
the run can never succeed, so the match is equivalent to taking the maximal
digit run subject to the length bound).  `searchWith` reproduces `re.search`:
the match is tried at every start position from the left. -/

/-- Anchored match of pattern 1 (day SEP month SEP year with a 2-4 digit
year group), returning the three captured groups. -/
def matchP1 (t : List Char) : Option (List Char × List Char × List Char) :=
  if 1 ≤ (t.takeWhile Char.isDigit).length ∧ (t.takeWhile Char.isDigit).length ≤ 2 then
    match t.dropWhile Char.isDigit with
    | s1 :: r2 =>
      if isSep s1 then
        if 1 ≤ (r2.takeWhile Char.isDigit).length ∧ (r2.takeWhile Char.isDigit).length ≤ 2 then
          match r2.dropWhile Char.isDigit with
          | s2 :: r4 =>
            if isSep s2 then
              if 2 ≤ (r4.takeWhile Char.isDigit).length then
                some (t.takeWhile Char.isDigit, r2.takeWhile Char.isDigit,
                      (r4.takeWhile Char.isDigit).take 4)
              else none
            else none
          | [] => none
        else none
      else none
    | [] => none
  else none

/-- Anchored match of pattern 2 (a 2-4 digit leading group, then two 1-2
digit groups, SEP separated). -/
def matchP2 (t : List Char) : Option (List Char × List Char × List Char) :=
  if 2 ≤ (t.takeWhile Char.isDigit).length ∧ (t.takeWhile Char.isDigit).length ≤ 4 then
    match t.dropWhile Char.isDigit with
    | s1 :: r2 =>
      if isSep s1 then
        if 1 ≤ (r2.takeWhile Char.isDigit).length ∧ (r2.takeWhile Char.isDigit).length ≤ 2 then
          match r2.dropWhile Char.isDigit with
          | s2 :: r4 =>
            if isSep s2 then
              if 1 ≤ (r4.takeWhile Char.isDigit).length then
                some (t.takeWhile Char.isDigit, r2.takeWhile Char.isDigit,
                      (r4.takeWhile Char.isDigit).take 2)
              else none
            else none
          | [] => none
        else none
      else none
    | [] => none
  else none

/-- Tail of pattern 3 after the day digits and optional ordinal suffix:
`\s+([A-Za-z]+)[,\s]+(\d{2,4})`, returning month group and year group. -/
def matchP3Tail (r : List Char) : Option (List Char × List Char) :=
  if 1 ≤ (r.takeWhile isPySpace).length then
    if 1 ≤ ((r.dropWhile isPySpace).takeWhile Char.isAlpha).length then
      if 1 ≤ (((r.dropWhile isPySpace).dropWhile Char.isAlpha).takeWhile isCommaSpace).length then
        if 2 ≤ ((((r.dropWhile isPySpace).dropWhile Char.isAlpha).dropWhile
                  isCommaSpace).takeWhile Char.isDigit).length then
          some ((r.dropWhile isPySpace).takeWhile Char.isAlpha,
                ((((r.dropWhile isPySpace).dropWhile Char.isAlpha).dropWhile
                  isCommaSpace).takeWhile Char.isDigit).take 4)
        else none
      else none
    else none
  else none

/-- Optional ordinal suffix `(?:st|nd|rd|th)?`: consume it when present. -/
def ordSuffix (r : List Char) : Option (List Char) :=
  match r with
  | c1 :: c2 :: rest =>
    if (c1 = 's' ∧ c2 = 't') ∨ (c1 = 'n' ∧ c2 = 'd') ∨
       (c1 = 'r' ∧ c2 = 'd') ∨ (c1 = 't' ∧ c2 = 'h') then some rest else none
  | _ => none

/-- Anchored match of pattern 3,
day digits, optional ordinal suffix, spaces, month name, comma or
spaces, year digits.  The optional
suffix is greedy: the engine first tries to consume it, then retries
without it. -/
def matchP3 (t : List Char) : Option (List Char × List Char × List Char) :=
  if 1 ≤ (t.takeWhile Char.isDigit).length ∧ (t.takeWhile Char.isDigit).length ≤ 2 then
    match (match ordSuffix (t.dropWhile Char.isDigit) with
           | some r2 => matchP3Tail r2
           | none => none) with
    | some (m, y) => some (t.takeWhile Char.isDigit, m, y)
    | none =>
      match matchP3Tail (t.dropWhile Char.isDigit) with
      | some (m, y) => some (t.takeWhile Char.isDigit, m, y)
      | none => none
  else none

/-- Leftmost search: try an anchored matcher at every start position
(`re.search`). -/
def searchWith {α : Type} (f : List Char → Option α) : List Char → Option α
  | [] => f []
  | c :: cs =>
    match f (c :: cs) with
    | some g => some g
    | none => searchWith f cs

/-- The month-name table of `post_process_extraction`, keyed by the
lowercased month group; missing names default to `"01"`. -/
def monthTable : List (List Char × List Char) :=
  [("january".data, "01".data), ("february".data, "02".data),
   ("march".data, "03".data), ("april".data, "04".data),
   ("may".data, "05".data), ("june".data, "06".data),
   ("july".data, "07".data), ("august".data, "08".data),
   ("september".data, "09".data), ("october".data, "10".data),
   ("november".data, "11".data), ("december".data, "12".data),
   ("jan".data, "01".data), ("feb".data, "02".data), ("mar".data, "03".data),
   ("apr".data, "04".data), ("jun".data, "06".data), ("jul".data, "07".data),
   ("aug".data, "08".data), ("sep".data, "09".data), ("oct".data, "10".data),
   ("nov".data, "11".data), ("dec".data, "12".data)]

/-- Lookup of the month group in the table (`month_names.get(m.lower(), "01")`). -/
def monthLookup (m : List Char) : List Char :=
  (monthTable.lookup (m.map Char.toLower)).getD "01".data

/-- Two-digit year fixup: `int(y)`, then `+2000` when below 30 else `+1900`,
then `str(...)`. -/
def yearFix (c : List Char) : List Char :=
  if natOfDigits c < 30 then natToChars (natOfDigits c + 2000)
  else natToChars (natOfDigits c + 1900)

/-- The shared post-match formatting block of the date branch: a two-digit
third group is year-fixed; a month group starting with a letter goes through
the month table; a four-character first group triggers the year-first swap;
otherwise the groups are joined as day/month/year. -/
def formatDMY (a b c : List Char) : List Char :=
  if (b.headD ' ').isAlpha then
    a ++ '/' :: monthLookup b ++ '/' :: (if c.length = 2 then yearFix c else c)
  else if a.length = 4 then
    (if c.length = 2 then yearFix c else c) ++ '/' :: b ++ '/' :: a
  else
    a ++ '/' :: b ++ '/' :: (if c.length = 2 then yearFix c else c)

/-- The invoice-date correction of `post_process_extraction`: pre-clean the
string, strip it, try the three patterns in order, and rewrite the date from
the first match; when no pattern matches the original string is returned
unmodified. -/
def normalizeDate (s : String) : String :=
  let t := pyStrip (subDateChars s.data)
  match searchWith matchP1 t with
  | some (a, b, c) => String.mk (formatDMY a b c)
  | none =>
    match searchWith matchP2 t with
    | some (a, b, c) => String.mk (formatDMY a b c)
    | none =>
      match searchWith matchP3 t with
      | some (a, b, c) => String.mk (formatDMY a b c)
      | none => s

/-! ### Weight conversion (`convert_weight_to_kg`)

The source function receives the JSON value of a product's weight field.  It
returns non-strings unchanged, so the embedded value type distinguishes
strings from numbers. -/

/-- A Python value that is either a string or a number, as stored in the
weight fields. -/
inductive PyWeight where
  | s (v : String)
  | num (q : ℚ)
deriving DecidableEq, Repr

/-- Does the first list occur as the initial segment of the second? -/
def startsWithChars : List Char → List Char → Bool
  | [], _ => true
  | _ :: _, [] => false
  | a :: as, b :: bs => if a = b then startsWithChars as bs else false

/-- Does the first list occur contiguously anywhere inside the second?
This is Python's `needle in hay` on strings. -/
def containsChars (needle : List Char) : List Char → Bool
  | [] => startsWithChars needle []
  | c :: cs => startsWithChars needle (c :: cs) || containsChars needle cs

/-- Python `needle in hay` on strings. -/
def containsStr (hay needle : String) : Bool :=
  containsChars needle.data hay.data

/-- The character predicate of Python's `replace(",", "")`: keep everything
except commas. -/
def notComma (c : Char) : Bool :=
  if c = ',' then false else true

/-- Anchored match of the weight pattern: digits, an optional dot-fraction,
optional whitespace, then at least one ASCII letter; this is `re.match` of
the number-and-unit expression used by `convert_weight_to_kg`.  Returns the
numeric value of the first group and the lowercased unit group. -/
def parseWeightMatch (l : List Char) : Option (ℚ × List Char) :=
  let d := l.takeWhile Char.isDigit
  if 1 ≤ d.length then
    let r := l.dropWhile Char.isDigit
    let fr : List Char × List Char :=
      match r with
      | '.' :: rest =>
        let f := rest.takeWhile Char.isDigit
        if 1 ≤ f.length then (f, rest.dropWhile Char.isDigit) else ([], r)
      | _ => ([], r)
    let value : ℚ := (natOfDigits d : ℚ) + (natOfDigits fr.1 : ℚ) / ((10 : ℚ) ^ fr.1.length)
    let r3 := fr.2.dropWhile isPySpace
    let u := r3.takeWhile Char.isAlpha
    if 1 ≤ u.length then some (value, u.map Char.toLower) else none
  else none

/-- Embedding of `convert_weight_to_kg`: `"N/A"` and non-strings are returned
unchanged; otherwise commas are removed, the number-and-unit pattern is
matched at the start, and a recognized unit converts the value to kilograms
(`qtl` times 100, `ton` times 1000, `kg` unchanged); on no match or an
unknown unit the comma-stripped string is returned. -/
def convert_weight_to_kg (w : PyWeight) : PyWeight :=
  match w with
  | .num q => .num q
  | .s v =>
    if v = "N/A" then .s v
    else
      match parseWeightMatch (v.data.filter notComma) with
      | none => .s (String.mk (v.data.filter notComma))
      | some vu =>
        if containsChars "qtl".data vu.2 then .num (vu.1 * 100)
        else if containsChars "ton".data vu.2 then .num (vu.1 * 1000)
        else if containsChars "kg".data vu.2 then .num vu.1
        else .s (String.mk (v.data.filter notComma))

/-! ### The data model

The AI service's parsed JSON responses and the result dictionaries are
embedded as records with optional fields: `none` is an absent key.  Responses
are modelled record-shaped, following the JSON schema that the extraction
prompt requests. -/

/-- One product line of a parsed response. -/
structure Product where
  goods_description : Option String
  hsn_sac_code : Option String
  quantity : Option String
  weight : Option String
  original_weight : Option String
  weight_in_kg : Option PyWeight
  rate : Option String
  amount : Option String
deriving DecidableEq, Repr

/-- A parsed candidate record from the AI service. -/
structure Candidate where
  company_name : Option String
  invoice_number : Option String
  fssai_number : Option String
  invoice_date : Option String
  products : Option (List Product)
deriving DecidableEq, Repr

/-- Python truthiness of an optional string: present and non-empty. -/
def truthyOpt : Option String → Bool
  | none => false
  | some s => if s = "" then false else true

/-- Keep only ASCII alphanumeric characters
(`re.sub` removing every character outside the alphanumeric class). -/
def filterAlnum (s : String) : String :=
  String.mk (s.data.filter Char.isAlphanum)

/-! ### Post-processing (`post_process_extraction`)

The company-name salvage scans the first 20 lines of the source text with
fixed regular expressions and picks the longest candidate, and the FSSAI
salvage scans the full text for a labelled 10-14 digit sequence; both are
pure functions of the source text alone.  The embedding abstracts the two
scans as function parameters `csearch` and `fsearch` from the text to an
optional replacement value (`none` when the scan finds no candidate): every
theorem proved for all such functions holds in particular for the source's
concrete scans. -/

/-- Trigger of the company-name salvage: the stripped value is a sentinel
(`"N/A"`, empty, `"NULL"`) or the value is exactly `"RICE MILL"`; an absent
key defaults to the empty string. -/
def companyTrigger (x : Option String) : Bool :=
  (let s := pyStripStr (x.getD "")
   if s = "N/A" ∨ s = "" ∨ s = "NULL" then true else false) ||
  (if x = some "RICE MILL" then true else false)

/-- Trigger of the FSSAI salvage: the value is absent, empty or `"N/A"`. -/
def fssaiTrigger (x : Option String) : Bool :=
  match x with
  | none => true
  | some s => if s = "" ∨ s = "N/A" then true else false

/-- Keep only the characters satisfying `p`, falling back to the sentinel
`"N/A"` when nothing is left — the shape `re.sub(...)` followed by
`x if x else "N/A"` used by the product cleanup. -/
def cleanKeep (p : Char → Bool) (s : String) : String :=
  if s.data.filter p = [] then "N/A" else String.mk (s.data.filter p)

/-- Product cleanup of `post_process_extraction`: the HSN/SAC code keeps only
digits (defaulting to `"N/A"` when nothing is left) and the quantity keeps
only digits and dots (same default). -/
def post_process_product (prod : Product) : Product :=
  { prod with
    hsn_sac_code := prod.hsn_sac_code.map (cleanKeep Char.isDigit),
    quantity := prod.quantity.map (cleanKeep (fun c => c.isDigit || c = '.')) }

/-- The company-name rewriting step: when the trigger fires, the scan result
replaces the value (keeping the old value when the scan finds nothing). -/
def companyStep (v : Option String) (x : Option String) : Option String :=
  if companyTrigger x then
    match v with
    | some c => some c
    | none => x
  else x

/-- The invoice-number rewriting step: a truthy value is reduced to its
alphanumeric characters. -/
def invoiceStep (x : Option String) : Option String :=
  if truthyOpt x then x.map filterAlnum else x

/-- The FSSAI rewriting step: a missing or sentinel value is replaced by the
scan result when the scan finds one. -/
def fssaiStep (v : Option String) (x : Option String) : Option String :=
  if fssaiTrigger x then
    match v with
    | some c => some c
    | none => x
  else x

/-- The invoice-date rewriting step: a truthy value goes through the date
normalization. -/
def dateStep (x : Option String) : Option String :=
  if truthyOpt x then x.map normalizeDate else x

/-- The product-list rewriting step: a present non-empty list is cleaned
per product. -/
def productsStep (x : Option (List Product)) : Option (List Product) :=
  match x with
  | some ps => if ps = [] then some ps else some (ps.map post_process_product)
  | none => none

/-- Embedding of `post_process_extraction`, parametric in the two text
scans: company-name salvage, invoice-number cleanup to alphanumeric, FSSAI
salvage, date normalization, and per-product cleanup.  Each field is rewritten
exactly when its source-side trigger fires. -/
def post_process_extraction (csearch fsearch : String → Option String)
    (r : Candidate) (text : String) : Candidate :=
  ⟨companyStep (csearch text) r.company_name,
   invoiceStep r.invoice_number,
   fssaiStep (fsearch text) r.fssai_number,
   dateStep r.invoice_date,
   productsStep r.products⟩

/-! ### Validation (`validate_extraction`) -/

/-- The returned validation dictionary, together with the candidate record as
mutated in place by validation (the leading `M/s` strip on the company name
and the alphanumeric cleanup of the invoice number). -/
structure ValidationOutcome where
  result : Candidate
  is_valid : Bool
  errors : List String
deriving DecidableEq, Repr

/-- Missing-required-field errors, in the source's field order.  A field is
missing when absent or falsy (empty string, empty product list). -/
def requiredFieldErrors (r : Candidate) : List String :=
  (if truthyOpt r.company_name then [] else ["Missing required field: company_name"]) ++
  (if truthyOpt r.invoice_number then [] else ["Missing required field: invoice_number"]) ++
  (if truthyOpt r.invoice_date then [] else ["Missing required field: invoice_date"]) ++
  (match r.products with
   | some ps => if ps = [] then ["Missing required field: products"] else []
   | none => ["Missing required field: products"])

/-- Strip a leading `M/s` prefix followed by whitespace
(`re.sub` of an anchored `M/s` plus one or more whitespace characters). -/
def stripLeadingMs (s : String) : String :=
  match s.data with
  | 'M' :: '/' :: 's' :: rest =>
    if 1 ≤ (rest.takeWhile isPySpace).length then String.mk (rest.dropWhile isPySpace)
    else s
  | _ => s

/-- The suspicious-value error for one numeric product field: raised exactly
when the field is present and equal to the sentinel `"N/A"`. -/
def suspiciousFieldError (i : ℕ) (fname : String) (v : Option String) : List String :=
  if v = some "N/A" then
    ["Product " ++ toString (i + 1) ++ " has suspicious \x27" ++ fname ++ "\x27 value: N/A"]
  else []

/-- Per-product validation errors from index `i` on, in source order
(quantity, rate, amount; the description field never produces an error
because only numeric fields are reported). -/
def productErrorsFrom (i : ℕ) : List Product → List String
  | [] => []
  | p :: ps =>
    suspiciousFieldError i "quantity" p.quantity ++
    suspiciousFieldError i "rate" p.rate ++
    suspiciousFieldError i "amount" p.amount ++
    productErrorsFrom (i + 1) ps

/-- Per-product validation errors of the enumeration loop. -/
def productErrors (ps : List Product) : List String :=
  productErrorsFrom 0 ps

/-- The in-place invoice-number mutation of validation: values other than
the `"N/A"` sentinel are reduced to their alphanumeric characters. -/
def invoiceNumberFix (x : Option String) : Option String :=
  match x with
  | some s => if s = "N/A" then some s else some (filterAlnum s)
  | none => none

/-- The digit-presence check of validation: an error exactly when the value
is present, not the sentinel, and contains no digit. -/
def invoiceNumberErrors (x : Option String) : List String :=
  match x with
  | some s =>
    if s = "N/A" then []
    else if s.data.any Char.isDigit then []
    else ["Invoice number \x27" ++ s ++ "\x27 doesn\x27t contain any digits"]
  | none => []

/-- The product-section errors of validation. -/
def productListErrors (x : Option (List Product)) : List String :=
  match x with
  | some ps => if ps = [] then ["No products extracted"] else productErrors ps
  | none => []

/-- Embedding of `validate_extraction`.  The `text` and `patternName`
arguments are accepted and ignored exactly as in the source body.  The
missing-field errors are computed from the incoming record, then the company
name has its `M/s` prefix stripped in place and the invoice number is
reduced to alphanumeric characters in place; the company-name identifier
matching loop of the source iterates over the `identifiers` entries of the
pattern catalog, and no catalog entry defines one, so that loop never
changes the record and is a no-op here. -/
def validate_extraction (r : Candidate) (text patternName : String) : ValidationOutcome :=
  let r2 : Candidate := { r with
    company_name := r.company_name.map stripLeadingMs,
    invoice_number := invoiceNumberFix r.invoice_number }
  let errs := requiredFieldErrors r ++ invoiceNumberErrors r.invoice_number ++
    productListErrors r.products
  ⟨r2, if errs = [] then true else false, errs⟩

/-! ### Final numeric cleanup (`process_invoice`, product loop) -/

/-- The numeric cleanup applied by `process_invoice` to quantity, rate and
amount: fields equal to `"N/A"` are kept, otherwise every character outside
digits, dot, comma and the currency symbols is removed. -/
def cleanNumericField (v : Option String) : Option String :=
  match v with
  | some s => if s = "N/A" then some s else some (String.mk (s.data.filter isMoneyChar))
  | none => none

/-- The per-product loop of `process_invoice`: original weight is saved,
the weight is converted to kilograms, and the three numeric fields are
cleaned. -/
def finalCleanProduct (p : Product) : Product :=
  let p1 := match p.weight with
    | some w =>
      { p with original_weight := some w, weight_in_kg := some (convert_weight_to_kg (.s w)) }
    | none => p
  { p1 with quantity := cleanNumericField p1.quantity,
            rate := cleanNumericField p1.rate,
            amount := cleanNumericField p1.amount }

/-! ### The rate limiter (`RateLimiter` of `invoice_processor.py`)

Timestamps are rationals; the random jitter factor drawn by
`random.uniform(0.8, 1.2)` is passed in as an explicit parameter. -/

/-- State of `invoice_processor.RateLimiter`: the call-timestamp queue
(front is oldest), the batch-size hint, the failed-file list and the current
adaptive wait time. -/
structure RateLimiter where
  max_calls_per_min : ℕ
  window_size_sec : ℚ
  calls : List ℚ
  batch_size : ℤ
  failed_files : List String
  current_wait_time : ℚ
deriving DecidableEq, Repr

/-- Constructor state of `RateLimiter.__init__`. -/
def RateLimiter.init (maxCalls : ℕ) (window : ℚ) : RateLimiter :=
  ⟨maxCalls, window, [], 1, [], 0⟩

/-- Front eviction of timestamps older than the window. -/
def RateLimiter.evict (rl : RateLimiter) (now : ℚ) : RateLimiter :=
  { rl with calls := rl.calls.dropWhile (fun t => decide (rl.window_size_sec < now - t)) }

/-- Result of one `wait_if_needed` call: the updated state, whether the call
slept, and for how long. -/
structure WaitOutcome where
  limiter : RateLimiter
  waited : Bool
  sleep_seconds : ℚ
deriving DecidableEq, Repr

/-- Embedding of `RateLimiter.wait_if_needed`: evict, count, and block when
forced, when fewer than 3 calls remain, or when the call count reaches 80%
of the cap; the sleep is the current wait time scaled by the jitter, raised
to a quarter of the window when at most one call remains. -/
def RateLimiter.wait_if_needed (rl : RateLimiter) (force_wait : Bool) (now jitter : ℚ) :
    WaitOutcome :=
  let rl2 := rl.evict now
  let call_count := rl2.calls.length
  let calls_remaining : ℤ := (rl2.max_calls_per_min : ℤ) - call_count
  if force_wait || decide (calls_remaining < 3) ||
     decide ((rl2.max_calls_per_min : ℚ) * (4 / 5) ≤ (call_count : ℚ)) then
    let wait_time := rl2.current_wait_time * jitter
    let wait_time2 :=
      if calls_remaining ≤ 1 then max wait_time (rl2.window_size_sec * (1 / 4)) else wait_time
    ⟨rl2, true, wait_time2⟩
  else ⟨rl2, false, 0⟩

/-- Embedding of `RateLimiter.add_call`: append the current timestamp,
unconditionally. -/
def RateLimiter.add_call (rl : RateLimiter) (now : ℚ) : RateLimiter :=
  { rl with calls := rl.calls ++ [now] }

/-- Embedding of `RateLimiter.add_failed_file`: append unless present. -/
def RateLimiter.add_failed_file (rl : RateLimiter) (f : String) : RateLimiter :=
  if f ∈ rl.failed_files then rl else { rl with failed_files := rl.failed_files ++ [f] }

/-- Embedding of `RateLimiter.clear_failed_files`. -/
def RateLimiter.clear_failed_files (rl : RateLimiter) : RateLimiter :=
  { rl with failed_files := [] }

/-- Embedding of `RateLimiter.set_batch_size`: clamp the hint to at least 1
and recompute the nominal wait time with a 20% buffer above the per-call
spacing when the batch exceeds the cap, 20% below otherwise. -/
def RateLimiter.set_batch_size (rl : RateLimiter) (n : ℤ) : RateLimiter :=
  { rl with batch_size := max 1 n,
            current_wait_time :=
              if (rl.max_calls_per_min : ℤ) < n then
                rl.window_size_sec / (rl.max_calls_per_min : ℚ) * (6 / 5)
              else
                rl.window_size_sec / (rl.max_calls_per_min : ℚ) * (4 / 5) }

/-- Embedding of `RateLimiter.get_utilization`: evict then report the
percentage of the cap in use. -/
def RateLimiter.get_utilization (rl : RateLimiter) (now : ℚ) : ℚ × RateLimiter :=
  let rl2 := rl.evict now
  ((rl2.calls.length : ℚ) / (rl2.max_calls_per_min : ℚ) * 100, rl2)

/-! ### The optimized rate limiter (`OptimizedRateLimiter`) -/

/-- State of `invoice_processor_optimized.OptimizedRateLimiter`: the call
queue is a deque with `maxlen = 2 * max_calls_per_min` and the failed files
are a Python set, modelled as a duplicate-free list. -/
structure OptimizedRateLimiter where
  max_calls_per_min : ℕ
  window_size_sec : ℚ
  calls : List ℚ
  batch_size : ℤ
  failed_files : List String
deriving DecidableEq, Repr

/-- Constructor state of `OptimizedRateLimiter.__init__`. -/
def OptimizedRateLimiter.init (maxCalls : ℕ) (window : ℚ) : OptimizedRateLimiter :=
  ⟨maxCalls, window, [], 1, []⟩

/-- Front eviction of timestamps older than the window. -/
def OptimizedRateLimiter.evict (rl : OptimizedRateLimiter) (now : ℚ) : OptimizedRateLimiter :=
  { rl with calls := rl.calls.dropWhile (fun t => decide (rl.window_size_sec < now - t)) }

/-- Embedding of `OptimizedRateLimiter.add_call`: a bounded deque append —
when the queue is full the oldest entry is discarded from the front. -/
def OptimizedRateLimiter.add_call (rl : OptimizedRateLimiter) (now : ℚ) :
    OptimizedRateLimiter :=
  let appended := rl.calls ++ [now]
  { rl with calls := appended.drop (appended.length - 2 * rl.max_calls_per_min) }

/-- Result of one optimized `wait_if_needed` call. -/
structure OptWaitOutcome where
  limiter : OptimizedRateLimiter
  waited : Bool
  sleep_seconds : ℚ
deriving DecidableEq, Repr

/-- Embedding of `OptimizedRateLimiter.wait_if_needed`: evict, then block
when forced or when fewer than 3 calls remain, sleeping for the per-call
spacing (at least one second). -/
def OptimizedRateLimiter.wait_if_needed (rl : OptimizedRateLimiter) (force_wait : Bool)
    (now : ℚ) : OptWaitOutcome :=
  let rl2 := rl.evict now
  let calls_remaining : ℤ := (rl2.max_calls_per_min : ℤ) - rl2.calls.length
  if force_wait || decide (calls_remaining < 3) then
    ⟨rl2, true, max 1 (rl2.window_size_sec / (rl2.max_calls_per_min : ℚ))⟩
  else ⟨rl2, false, 0⟩

/-- Embedding of `OptimizedRateLimiter.add_failed_file`: set insertion. -/
def OptimizedRateLimiter.add_failed_file (rl : OptimizedRateLimiter) (f : String) :
    OptimizedRateLimiter :=
  if f ∈ rl.failed_files then rl else { rl with failed_files := rl.failed_files ++ [f] }

/-- Embedding of `OptimizedRateLimiter.clear_failed_files`. -/
def OptimizedRateLimiter.clear_failed_files (rl : OptimizedRateLimiter) :
    OptimizedRateLimiter :=
  { rl with failed_files := [] }

/-- Embedding of `OptimizedRateLimiter.set_batch_size`. -/
def OptimizedRateLimiter.set_batch_size (rl : OptimizedRateLimiter) (n : ℤ) :
    OptimizedRateLimiter :=
  { rl with batch_size := max 1 n }

/-- Embedding of `OptimizedRateLimiter.get_utilization`. -/
def OptimizedRateLimiter.get_utilization (rl : OptimizedRateLimiter) (now : ℚ) :
    ℚ × OptimizedRateLimiter :=
  let rl2 := rl.evict now
  ((rl2.calls.length : ℚ) / (rl2.max_calls_per_min : ℚ) * 100, rl2)

/-! ### Operation sequences over the limiters -/

/-- One public rate-limiter operation with its external inputs (timestamps
and jitter draws). -/
inductive RLOp where
  | addCall (t : ℚ)
  | waitIfNeeded (force : Bool) (t j : ℚ)
  | addFailedFile (f : String)
  | clearFailedFiles
  | setBatchSize (n : ℤ)
  | getUtilization (t : ℚ)
deriving DecidableEq, Repr

/-- Apply one operation to a `RateLimiter` state. -/
def RateLimiter.runOp (rl : RateLimiter) : RLOp → RateLimiter
  | .addCall t => rl.add_call t
  | .waitIfNeeded force t j => (rl.wait_if_needed force t j).limiter
  | .addFailedFile f => rl.add_failed_file f
  | .clearFailedFiles => rl.clear_failed_files
  | .setBatchSize n => rl.set_batch_size n
  | .getUtilization t => (rl.get_utilization t).2

/-- Apply a sequence of operations to a `RateLimiter` state. -/
def RateLimiter.runOps (rl : RateLimiter) (ops : List RLOp) : RateLimiter :=
  ops.foldl RateLimiter.runOp rl

/-- Apply one operation to an `OptimizedRateLimiter` state (the jitter input
is unused: the optimized waiter draws no jitter). -/
def OptimizedRateLimiter.runOp (rl : OptimizedRateLimiter) : RLOp → OptimizedRateLimiter
  | .addCall t => rl.add_call t
  | .waitIfNeeded force t _ => (rl.wait_if_needed force t).limiter
  | .addFailedFile f => rl.add_failed_file f
  | .clearFailedFiles => rl.clear_failed_files
  | .setBatchSize n => rl.set_batch_size n
  | .getUtilization t => (rl.get_utilization t).2

/-- Apply a sequence of operations to an `OptimizedRateLimiter` state. -/
def OptimizedRateLimiter.runOps (rl : OptimizedRateLimiter) (ops : List RLOp) :
    OptimizedRateLimiter :=
  ops.foldl OptimizedRateLimiter.runOp rl

/-! ### Lock-extent trace of `wait_if_needed`

In the source the whole body of `wait_if_needed` — eviction, the blocking
decision and `time.sleep` — is inside the `with self.lock` block, so the
mutex is acquired on entry and released only when the block exits. -/

/-- An observable event of a `wait_if_needed` call with respect to the
limiter's mutex. -/
inductive LockEvent where
  | acquire
  | sleep (d : ℚ)
  | release
deriving DecidableEq, Repr

/-- Event trace of `RateLimiter.wait_if_needed`: acquire on entry to the
`with self.lock` block, sleep inside it on the blocking path, release on
exit. -/
def RateLimiter.waitTrace (rl : RateLimiter) (force_wait : Bool) (now jitter : ℚ) :
    List LockEvent :=
  let res := rl.wait_if_needed force_wait now jitter
  if res.waited then [.acquire, .sleep res.sleep_seconds, .release]
  else [.acquire, .release]

/-- Does some sleep event of the trace occur while the lock is held?
Computed by folding over the trace tracking lock ownership. -/
def sleepsWhileLocked (tr : List LockEvent) : Bool :=
  (tr.foldl (fun st e =>
    match e with
    | .acquire => (true, st.2)
    | .release => (false, st.2)
    | .sleep _ => (st.1, st.2 || st.1)) ((false, false) : Bool × Bool)).2

/-! ### Orchestration (`process_with_gemini` and `process_invoice`)

External effects are collected in an environment record: the outcome of PDF
text extraction (which can raise), the layout identification result, the AI
service's behaviour per extraction pass and attempt (a parsed record-shaped
response, or an exception whose message is classified for throttling), and
the two post-processing text scans.  The orchestration functions below are
the source's control flow as a deterministic function of this environment. -/

/-- Outcome of one attempt inside `process_with_gemini`: either a parsed
record-shaped JSON response, or an exception raised by the service call or
by JSON parsing, carrying its message. -/
inductive GeminiOutcome where
  | response (r : Candidate)
  | exn (msg : String)
deriving DecidableEq

/-- The external world of one `process_invoice` call. -/
structure Env where
  extractText : Except String String
  identify : String → String
  attempt : String → ℕ → GeminiOutcome
  companySearch : String → Option String
  fssaiSearch : String → Option String
  elapsed : ℚ

/-- Classification of an exception message as a throttling error:
`"429" in msg or "Resource has been exhausted" in msg`. -/
def isRateLimitMsg (m : String) : Bool :=
  containsStr m "429" || containsStr m "Resource has been exhausted"

/-- Result of one extraction pass: the (possibly absent) extracted record,
the failed-file record after the pass, and how many attempts were used. -/
structure GeminiPassResult where
  result : Option Candidate
  failed : List String
  attemptsMade : ℕ
deriving DecidableEq

/-- Record a failed file with deduplication, as `add_failed_file` does on
the shared limiter. -/
def addFailedList (l : List String) (f : String) : List String :=
  if f ∈ l then l else l ++ [f]

/-- The attempt loop of `process_with_gemini`, recursing on the remaining
attempt budget.  On a parsed response the record is validated (validation
mutates the record in place); an invalid response on a non-final attempt is
discarded and retried with a refined prompt, while on the final attempt the
loop exits with the (still invalid) validated record.  On an exception the
message is classified: throttling errors record the file for deferred retry;
the pass gives up and returns no record once the budget is exhausted. -/
def geminiAttempts (env : Env) (text pattern : String) (filePath : Option String) :
    ℕ → ℕ → List String → GeminiPassResult
  | 0, made, failed => ⟨none, failed, made⟩
  | rem + 1, made, failed =>
    let idx := made + 1
    match env.attempt pattern idx with
    | .response r =>
      let v := validate_extraction r text pattern
      if v.is_valid then ⟨some v.result, failed, idx⟩
      else if rem = 0 then ⟨some v.result, failed, idx⟩
      else geminiAttempts env text pattern filePath rem idx failed
    | .exn msg =>
      let failed2 :=
        if isRateLimitMsg msg then
          match filePath with
          | some f => addFailedList failed f
          | none => failed
        else failed
      if rem = 0 then ⟨none, failed2, idx⟩
      else geminiAttempts env text pattern filePath rem idx failed2

/-- The pattern used by a pass: the explicit argument when given, otherwise
the identification result for the text. -/
def passPattern (env : Env) (text : String) (patternArg : Option String) : String :=
  patternArg.getD (env.identify text)

/-- Embedding of `process_with_gemini`: run the attempt loop under the
selected pattern, then post-process the extracted record when one was
obtained. -/
def process_with_gemini (env : Env) (text : String) (patternArg : Option String)
    (maxAttempts : ℕ) (filePath : Option String) (failed : List String) :
    GeminiPassResult :=
  let pattern := passPattern env text patternArg
  let res := geminiAttempts env text pattern filePath maxAttempts 0 failed
  ⟨res.result.map (fun r => post_process_extraction env.companySearch env.fssaiSearch r text),
   res.failed, res.attemptsMade⟩

/-- The per-field confidence vector computed by `process_invoice`. -/
structure Confidence where
  company_name : ℚ
  invoice_number : ℚ
  fssai_number : ℚ
  invoice_date : ℚ
  products : ℚ
  overall : ℚ
deriving DecidableEq, Repr

/-- Confidence scores of a successful extraction: 0.9 per non-sentinel
scalar field, 0.2 per product line capped at 0.9, and the unweighted mean
over the five scores. -/
def confidenceOf (r : Candidate) : Confidence :=
  let c1 : ℚ := if r.company_name.getD "N/A" = "N/A" then 0 else 9 / 10
  let c2 : ℚ := if r.invoice_number.getD "N/A" = "N/A" then 0 else 9 / 10
  let c3 : ℚ := if r.fssai_number.getD "N/A" = "N/A" then 0 else 9 / 10
  let c4 : ℚ := if r.invoice_date.getD "N/A" = "N/A" then 0 else 9 / 10
  let cp : ℚ := min (9 / 10) ((1 / 5) * ((r.products.getD []).length : ℚ))
  ⟨c1, c2, c3, c4, cp, (c1 + c2 + c3 + c4 + cp) / 5⟩

/-- The result dictionary returned by `process_invoice`; optional fields are
keys that are absent in some result shapes. -/
structure InvoiceResult where
  success : Bool
  error : Option String
  rate_limited : Option Bool
  company_name : Option String
  invoice_number : Option String
  fssai_number : Option String
  invoice_date : Option String
  products : Option (List Product)
  confidence_scores : Option Confidence
  pattern_used : Option String
  processing_time : Option ℚ
deriving DecidableEq

/-- A failure dictionary of `process_invoice`: `success = false`, the error
message, the `N/A` placeholders and an empty product list; the
`rate_limited` key is present only on throttling failures. -/
def failureResult (msg : String) (rateLimited : Bool) : InvoiceResult :=
  ⟨false, some msg, if rateLimited then some true else none,
   some "N/A", some "N/A", some "N/A", some "N/A", some [], none, none, none⟩

/-- The failure dictionary chosen when both passes produced no record: the
throttling variant when the document is in the failed-file record, the
generic variant otherwise. -/
def noResultOutcome (path : String) (failed : List String) : InvoiceResult :=
  if path ∈ failed then
    failureResult "API rate limit exceeded. Please try again later or process fewer files at once." true
  else failureResult "Gemini API returned no result" false

/-- The success dictionary of `process_invoice`: confidence scores, the
per-product weight conversion and numeric cleanup, and the metadata keys,
merged with the extracted fields. -/
def successResult (env : Env) (patternName : String) (extracted : Candidate) : InvoiceResult :=
  let conf := confidenceOf extracted
  let prods := match extracted.products with
    | some ps => if ps = [] then some ps else some (ps.map finalCleanProduct)
    | none => none
  ⟨true, none, none, extracted.company_name, extracted.invoice_number,
   extracted.fssai_number, extracted.invoice_date, prods, some conf,
   some patternName, some env.elapsed⟩

/-- Embedding of `process_invoice`.  Besides the result dictionary it
returns the log of extraction passes as pairs of the pattern given to
`process_with_gemini` and the attempt budget of that pass.  The top-level
`except` clause is the `Except.error` branch of text extraction; every other
path of the embedded body is total. -/
def process_invoice (env : Env) (path : String) : InvoiceResult × List (String × ℕ) :=
  match env.extractText with
  | .error e => (failureResult e false, [])
  | .ok text =>
    if pyStripStr text = "" then
      (failureResult "Could not extract text from PDF" false, [])
    else
      let p := env.identify text
      let pass1 := process_with_gemini env text (some p) 3 (some path) []
      match pass1.result with
      | some extracted => (successResult env p extracted, [(p, 3)])
      | none =>
        if p = "generic_invoice" then
          (noResultOutcome path pass1.failed, [(p, 3)])
        else
          let pass2 := process_with_gemini env text (some "generic_invoice") 3 (some path)
            pass1.failed
          match pass2.result with
          | some extracted => (successResult env p extracted, [(p, 3), ("generic_invoice", 3)])
          | none => (noResultOutcome path pass2.failed, [(p, 3), ("generic_invoice", 3)])

/-! ### Claim-specific concrete instances and spec-side predicates -/

/-- The specification's wording for a normalized numeric product field,
written from the specification (not from the code) for comparison: only
digits and at most one decimal separator, or the `"N/A"` sentinel. -/
def specNumericNormalized (s : String) : Bool :=
  if s = "N/A" then true
  else (s.data.all (fun c => c.isDigit || c = '.')) && decide (s.data.count '.' ≤ 1)

/-- The character-set invariant that the code actually guarantees for the
numeric fields of a product in a successful result: the HSN/SAC code is
digits-only (or absent or the sentinel), the quantity keeps only digits and
dots, and rate and amount keep only digits, dots, commas and currency
symbols. -/
def productNumericInvariant (q : Product) : Prop :=
  (q.hsn_sac_code = none ∨ q.hsn_sac_code = some "N/A" ∨
    ∃ s, q.hsn_sac_code = some s ∧ s ≠ "" ∧ ∀ c ∈ s.data, c.isDigit = true) ∧
  (q.quantity = none ∨ q.quantity = some "N/A" ∨
    ∃ s, q.quantity = some s ∧ ∀ c ∈ s.data, (c.isDigit || c = '.') = true) ∧
  (q.rate = none ∨ q.rate = some "N/A" ∨
    ∃ s, q.rate = some s ∧ ∀ c ∈ s.data, isMoneyChar c = true) ∧
  (q.amount = none ∨ q.amount = some "N/A" ∨
    ∃ s, q.amount = some s ∧ ∀ c ∈ s.data, isMoneyChar c = true)

/-- A product line as the AI service may return it: a rate with a currency
symbol, a comma and two decimal points. -/
def productC6 : Product :=
  ⟨some "Rice", some "1006x", some "2 bags", none, none, none,
   some "₹1,2.3.4x", some "70,000"⟩

/-- A candidate record holding `productC6`. -/
def candidateC6 : Candidate :=
  ⟨some "A Co", some "INV-12/3#", none, some "12-12-23", some [productC6]⟩

/-- An environment whose first attempt returns `candidateC6`. -/
def envC6 : Env :=
  ⟨Except.ok "sometext", fun _ => "pattern_a",
   fun _ _ => GeminiOutcome.response candidateC6, fun _ => none, fun _ => none, 1⟩

/-- An environment whose service always raises a non-throttling error, so
every extraction pass fails entirely. -/
def envC3 : Env :=
  ⟨Except.ok "text", fun _ => "pattern_a", fun _ _ => GeminiOutcome.exn "boom",
   fun _ => none, fun _ => none, 1⟩

/-- A limiter with a full window: cap 15 and 15 recorded timestamps. -/
def rlC9 : RateLimiter :=
  ⟨15, 60, List.replicate 15 0, 1, [], 0⟩

/-- A limiter with a full window, used to instantiate the blocking claim. -/
def rlC4 : RateLimiter :=
  ⟨15, 60, List.replicate 15 0, 1, [], 0⟩

/-- The day/month/year output shape of the date rewriting block. -/
def mkDMY (a b c : List Char) : List Char :=
  a ++ '/' :: (b ++ '/' :: c)

/-! ### Helper lemmas on character lists -/

lemma takeWhile_eq_self_of_all {p : Char → Bool} {l : List Char}
    (h : ∀ c ∈ l, p c = true) : l.takeWhile p = l := by
  induction l with
  | nil => rfl
  | cons x xs ih =>
    simp only [List.takeWhile_cons, h x (by simp)]
    simp [ih (fun c hc => h c (by simp [hc]))]

lemma dropWhile_eq_nil_of_all {p : Char → Bool} {l : List Char}
    (h : ∀ c ∈ l, p c = true) : l.dropWhile p = [] := by
  induction l with
  | nil => rfl
  | cons x xs ih =>
    simp only [List.dropWhile_cons, h x (by simp)]
    simp [ih (fun c hc => h c (by simp [hc]))]

lemma dropWhile_eq_self_of_all {p : Char → Bool} {l : List Char}
    (h : ∀ c ∈ l, p c = false) : l.dropWhile p = l := by
  cases l with
  | nil => rfl
  | cons x xs => simp [List.dropWhile_cons, h x (by simp)]

lemma takeWhile_append_cons {p : Char → Bool} {l1 : List Char} {x : Char} {l2 : List Char}
    (h1 : ∀ c ∈ l1, p c = true) (hx : p x = false) :
    (l1 ++ x :: l2).takeWhile p = l1 := by
  induction l1 with
  | nil => simp [List.takeWhile_cons, hx]
  | cons y ys ih =>
    simp only [List.cons_append, List.takeWhile_cons, h1 y (by simp)]
    simp [ih (fun c hc => h1 c (by simp [hc]))]

lemma dropWhile_append_cons {p : Char → Bool} {l1 : List Char} {x : Char} {l2 : List Char}
    (h1 : ∀ c ∈ l1, p c = true) (hx : p x = false) :
    (l1 ++ x :: l2).dropWhile p = x :: l2 := by
  induction l1 with
  | nil => simp [List.dropWhile_cons, hx]
  | cons y ys ih =>
    simp only [List.cons_append, List.dropWhile_cons, h1 y (by simp)]
    simp [ih (fun c hc => h1 c (by simp [hc]))]

lemma mem_of_mem_takeWhile {p : Char → Bool} {l : List Char} {a : Char}
    (h : a ∈ l.takeWhile p) : a ∈ l ∧ p a = true := by
  induction l with
  | nil => simp [List.takeWhile] at h
  | cons x xs ih =>
    by_cases hx : p x = true
    · simp only [List.takeWhile_cons, hx, if_true] at h
      rcases List.mem_cons.1 h with rfl | h2
      · exact ⟨by simp, hx⟩
      · exact ⟨by simp [(ih h2).1], (ih h2).2⟩
    · simp only [List.takeWhile_cons] at h
      rw [Bool.not_eq_true] at hx
      simp [hx] at h

lemma isSep_not_digit {c : Char} (h : isSep c = true) : c.isDigit = false := by
  simp only [isSep, Bool.or_eq_true, decide_eq_true_eq] at h
  rcases h with ((rfl | rfl) | rfl) | rfl <;> decide

lemma digit_not_alpha {c : Char} (h : c.isDigit = true) : c.isAlpha = false := by
  simp only [Char.isDigit, Bool.and_eq_true, decide_eq_true_eq, ge_iff_le] at h
  rw [Bool.eq_false_iff]
  intro hcon
  simp only [Char.isAlpha, Char.isUpper, Char.isLower, Bool.or_eq_true, Bool.and_eq_true,
    decide_eq_true_eq, ge_iff_le] at hcon
  rcases hcon with ⟨h3, _⟩ | ⟨h3, _⟩
  · exact absurd (UInt32.le_trans h3 h.2) (by decide)
  · exact absurd (UInt32.le_trans h3 h.2) (by decide)

lemma digit_not_pySpace {c : Char} (h : c.isDigit = true) : isPySpace c = false := by
  simp only [Char.isDigit, Bool.and_eq_true, decide_eq_true_eq, ge_iff_le] at h
  rw [Bool.eq_false_iff]
  intro hcon
  simp only [isPySpace, Bool.or_eq_true, decide_eq_true_eq] at hcon
  rcases hcon with ((((rfl | rfl) | rfl) | rfl) | rfl) | rfl <;>
    exact absurd h.1 (by decide)

lemma digit_isDateKeep {c : Char} (h : c.isDigit = true) : isDateKeep c = true := by
  simp [isDateKeep, h]

lemma subDateChars_eq_self_of {l : List Char} (h : ∀ c ∈ l, isDateKeep c = true) :
    subDateChars l = l := by
  unfold subDateChars
  induction l with
  | nil => rfl
  | cons x xs ih =>
    simp only [List.map_cons, h x (by simp), if_true]
    simp [ih (fun c hc => h c (by simp [hc]))]

lemma pyStrip_eq_self_of {l : List Char} (h : ∀ c ∈ l, isPySpace c = false) :
    pyStrip l = l := by
  unfold pyStrip
  rw [dropWhile_eq_self_of_all h, dropWhile_eq_self_of_all (by
    intro c hc
    exact h c (List.mem_reverse.1 hc)), List.reverse_reverse]

/-! ### Inversion and construction lemmas for the date matchers -/

lemma matchP1_decomp {t a b c : List Char} (h : matchP1 t = some (a, b, c)) :
    ∃ (s1 s2 : Char) (rest : List Char),
      t = a ++ s1 :: b ++ s2 :: rest ∧
      (∀ x ∈ a, x.isDigit = true) ∧ 1 ≤ a.length ∧ a.length ≤ 2 ∧
      (∀ x ∈ b, x.isDigit = true) ∧ 1 ≤ b.length ∧ b.length ≤ 2 ∧
      isSep s1 = true ∧ isSep s2 = true ∧
      c = (rest.takeWhile Char.isDigit).take 4 ∧
      2 ≤ (rest.takeWhile Char.isDigit).length := by
  unfold matchP1 at h
  split at h
  case isFalse => exact absurd h (by simp)
  case isTrue h1 =>
    split at h
    case h_2 => exact absurd h (by simp)
    case h_1 s1 r2 heq =>
      split at h
      case isFalse => exact absurd h (by simp)
      case isTrue hs1 =>
        split at h
        case isFalse => exact absurd h (by simp)
        case isTrue h2 =>
          split at h
          case h_2 => exact absurd h (by simp)
          case h_1 s2 r4 heq2 =>
            split at h
            case isFalse => exact absurd h (by simp)
            case isTrue hs2 =>
              split at h
              case isFalse => exact absurd h (by simp)
              case isTrue h3 =>
                simp only [Option.some.injEq, Prod.mk.injEq] at h
                obtain ⟨ha, hb, hc⟩ := h
                subst ha
                subst hb
                subst hc
                refine ⟨s1, s2, r4, ?_, fun x hx => (mem_of_mem_takeWhile hx).2, h1.1, h1.2,
                  fun x hx => (mem_of_mem_takeWhile hx).2, h2.1, h2.2, hs1, hs2, rfl, h3⟩
                have hr2 : r2 = List.takeWhile Char.isDigit r2 ++ s2 :: r4 := by
                  conv_lhs => rw [← List.takeWhile_append_dropWhile (p := Char.isDigit)
                    (l := r2), heq2]
                conv_lhs => rw [← List.takeWhile_append_dropWhile (p := Char.isDigit)
                  (l := t), heq, hr2]
                simp

lemma matchP2_decomp {t a b c : List Char} (h : matchP2 t = some (a, b, c)) :
    ∃ (s1 s2 : Char) (rest : List Char),
      t = a ++ s1 :: b ++ s2 :: rest ∧
      (∀ x ∈ a, x.isDigit = true) ∧ 2 ≤ a.length ∧ a.length ≤ 4 ∧
      (∀ x ∈ b, x.isDigit = true) ∧ 1 ≤ b.length ∧ b.length ≤ 2 ∧
      isSep s1 = true ∧ isSep s2 = true ∧
      c = (rest.takeWhile Char.isDigit).take 2 ∧
      1 ≤ (rest.takeWhile Char.isDigit).length := by
  unfold matchP2 at h
  split at h
  case isFalse => exact absurd h (by simp)
  case isTrue h1 =>
    split at h
    case h_2 => exact absurd h (by simp)
    case h_1 s1 r2 heq =>
      split at h
      case isFalse => exact absurd h (by simp)
      case isTrue hs1 =>
        split at h
        case isFalse => exact absurd h (by simp)
        case isTrue h2 =>
          split at h
          case h_2 => exact absurd h (by simp)
          case h_1 s2 r4 heq2 =>
            split at h
            case isFalse => exact absurd h (by simp)
            case isTrue hs2 =>
              split at h
              case isFalse => exact absurd h (by simp)
              case isTrue h3 =>
                simp only [Option.some.injEq, Prod.mk.injEq] at h
                obtain ⟨ha, hb, hc⟩ := h
                subst ha
                subst hb
                subst hc
                refine ⟨s1, s2, r4, ?_, fun x hx => (mem_of_mem_takeWhile hx).2, h1.1, h1.2,
                  fun x hx => (mem_of_mem_takeWhile hx).2, h2.1, h2.2, hs1, hs2, rfl, h3⟩
                have hr2 : r2 = List.takeWhile Char.isDigit r2 ++ s2 :: r4 := by
                  conv_lhs => rw [← List.takeWhile_append_dropWhile (p := Char.isDigit)
                    (l := r2), heq2]
                conv_lhs => rw [← List.takeWhile_append_dropWhile (p := Char.isDigit)
                  (l := t), heq, hr2]
                simp

lemma matchP1_of {a b : List Char} {s1 s2 : Char} {rest : List Char}
    (had : ∀ x ∈ a, x.isDigit = true) (ha1 : 1 ≤ a.length) (ha2 : a.length ≤ 2)
    (hs1 : isSep s1 = true)
    (hbd : ∀ x ∈ b, x.isDigit = true) (hb1 : 1 ≤ b.length) (hb2 : b.length ≤ 2)
    (hs2 : isSep s2 = true)
    (hrest : 2 ≤ (rest.takeWhile Char.isDigit).length) :
    matchP1 (a ++ s1 :: b ++ s2 :: rest)
      = some (a, b, (rest.takeWhile Char.isDigit).take 4) := by
  have htw1 : (a ++ s1 :: (b ++ s2 :: rest)).takeWhile Char.isDigit = a :=
    takeWhile_append_cons had (isSep_not_digit hs1)
  have hdw1 : (a ++ s1 :: (b ++ s2 :: rest)).dropWhile Char.isDigit = s1 :: (b ++ s2 :: rest) :=
    dropWhile_append_cons had (isSep_not_digit hs1)
  have htw2 : (b ++ s2 :: rest).takeWhile Char.isDigit = b :=
    takeWhile_append_cons hbd (isSep_not_digit hs2)
  have hdw2 : (b ++ s2 :: rest).dropWhile Char.isDigit = s2 :: rest :=
    dropWhile_append_cons hbd (isSep_not_digit hs2)
  rw [show a ++ s1 :: b ++ s2 :: rest = a ++ s1 :: (b ++ s2 :: rest) by simp]
  unfold matchP1
  simp only [htw1, hdw1, htw2, hdw2]
  rw [if_pos ⟨ha1, ha2⟩, if_pos hs1, if_pos ⟨hb1, hb2⟩, if_pos hs2, if_pos hrest]

lemma matchP2_of {a b : List Char} {s1 s2 : Char} {rest : List Char}
    (had : ∀ x ∈ a, x.isDigit = true) (ha1 : 2 ≤ a.length) (ha2 : a.length ≤ 4)
    (hs1 : isSep s1 = true)
    (hbd : ∀ x ∈ b, x.isDigit = true) (hb1 : 1 ≤ b.length) (hb2 : b.length ≤ 2)
    (hs2 : isSep s2 = true)
    (hrest : 1 ≤ (rest.takeWhile Char.isDigit).length) :
    matchP2 (a ++ s1 :: b ++ s2 :: rest)
      = some (a, b, (rest.takeWhile Char.isDigit).take 2) := by
  have htw1 : (a ++ s1 :: (b ++ s2 :: rest)).takeWhile Char.isDigit = a :=
    takeWhile_append_cons had (isSep_not_digit hs1)
  have hdw1 : (a ++ s1 :: (b ++ s2 :: rest)).dropWhile Char.isDigit = s1 :: (b ++ s2 :: rest) :=
    dropWhile_append_cons had (isSep_not_digit hs1)
  have htw2 : (b ++ s2 :: rest).takeWhile Char.isDigit = b :=
    takeWhile_append_cons hbd (isSep_not_digit hs2)
  have hdw2 : (b ++ s2 :: rest).dropWhile Char.isDigit = s2 :: rest :=
    dropWhile_append_cons hbd (isSep_not_digit hs2)
  rw [show a ++ s1 :: b ++ s2 :: rest = a ++ s1 :: (b ++ s2 :: rest) by simp]
  unfold matchP2
  simp only [htw1, hdw1, htw2, hdw2]
  rw [if_pos ⟨ha1, ha2⟩, if_pos hs1, if_pos ⟨hb1, hb2⟩, if_pos hs2, if_pos hrest]

/-! ### Search lemmas -/

lemma searchWith_some_of {α : Type} {f : List Char → Option α} {t : List Char} {g : α}
    (h : f t = some g) : searchWith f t = some g := by
  cases t with
  | nil => simpa [searchWith] using h
  | cons x xs => simp [searchWith, h]

lemma searchWith_exists_of_some {α : Type} {f : List Char → Option α} {t : List Char} {g : α}
    (h : searchWith f t = some g) : ∃ n, f (t.drop n) = some g := by
  induction t with
  | nil => exact ⟨0, by simpa [searchWith] using h⟩
  | cons x xs ih =>
    rw [searchWith] at h
    rcases hx : f (x :: xs) with _ | g2
    · rw [hx] at h
      obtain ⟨n, hn⟩ := ih h
      exact ⟨n + 1, by simpa using hn⟩
    · rw [hx] at h
      cases h
      exact ⟨0, hx⟩

lemma searchWith_isSome_of {α : Type} {f : List Char → Option α} {t : List Char} {n : ℕ} {g : α}
    (h : f (t.drop n) = some g) : ∃ g2, searchWith f t = some g2 := by
  induction t generalizing n with
  | nil =>
    simp only [List.drop_nil] at h
    exact ⟨g, by simpa [searchWith] using h⟩
  | cons x xs ih =>
    cases n with
    | zero =>
      simp only [List.drop] at h
      exact ⟨g, by simp [searchWith, h]⟩
    | succ m =>
      simp only [List.drop] at h
      obtain ⟨g2, hg2⟩ := ih (n := m) h
      rcases hx : f (x :: xs) with _ | g3
      · exact ⟨g2, by simp [searchWith, hx, hg2]⟩
      · exact ⟨g3, by simp [searchWith, hx]⟩

lemma searchWith_none_of {α : Type} {f : List Char → Option α} {t : List Char}
    (h : ∀ n, f (t.drop n) = none) : searchWith f t = none := by
  induction t with
  | nil => simpa [searchWith] using h 0
  | cons x xs ih =>
    rw [searchWith]
    have h0 := h 0
    simp only [List.drop] at h0
    rw [h0]
    exact ih (fun n => by simpa using h (n + 1))

/-! ### Basic evaluations of the first date matcher -/

lemma matchP1_nil : matchP1 [] = none := by decide

lemma matchP1_not_digit_head {x : Char} (hx : x.isDigit = false) (xs : List Char) :
    matchP1 (x :: xs) = none := by
  unfold matchP1
  rw [if_neg]
  simp [List.takeWhile_cons, hx]

lemma matchP1_single_digit {d : Char} (hd : d.isDigit = true) : matchP1 [d] = none := by
  unfold matchP1
  rw [if_pos (by simp [List.takeWhile_cons, hd])]
  have : List.dropWhile Char.isDigit [d] = [] := by simp [List.dropWhile_cons, hd]
  rw [this]

/-- No position of `b ++ '/' :: c` starts a pattern-1 match when `b` is a
short digit run and `c` is a single digit: the final group needs at least two
digits after the second separator but only one is available. -/
lemma searchP1_none_tail {c : List Char}
    (hcd : ∀ x ∈ c, x.isDigit = true) (hc1 : c.length = 1) :
    ∀ b, (∀ x ∈ b, x.isDigit = true) → b.length ≤ 2 →
      searchWith matchP1 (b ++ '/' :: c) = none := by
  intro b
  induction b with
  | nil =>
    intro _ _
    obtain ⟨d, rfl⟩ := List.length_eq_one.1 hc1
    have h1 : matchP1 ('/' :: [d]) = none := matchP1_not_digit_head (by decide) _
    have h2 : matchP1 [d] = none := matchP1_single_digit (hcd d (by simp))
    simp [searchWith, h1, h2, matchP1_nil]
  | cons y ys ih =>
    intro hbd hb2
    have hm : matchP1 ((y :: ys) ++ '/' :: c) = none := by
      have htw1 : ((y :: ys) ++ '/' :: c).takeWhile Char.isDigit = y :: ys :=
        takeWhile_append_cons hbd (by decide)
      have hdw1 : ((y :: ys) ++ '/' :: c).dropWhile Char.isDigit = '/' :: c :=
        dropWhile_append_cons hbd (by decide)
      unfold matchP1
      simp only [htw1, hdw1]
      rw [if_pos ⟨by simp, hb2⟩, if_pos (by decide : isSep '/' = true),
        takeWhile_eq_self_of_all hcd, dropWhile_eq_nil_of_all hcd,
        if_pos ⟨by omega, by omega⟩]
    have hm2 : matchP1 (y :: (ys ++ '/' :: c)) = none := hm
    rw [List.cons_append, searchWith, hm2]
    exact ih (fun x hx => hbd x (by simp [hx])) (by simp at hb2 ⊢; omega)

/-- No position of `a ++ '/' :: (b ++ '/' :: c)` starts a pattern-1 match
when `a` is a digit run of length at most 3, `b` a digit run of length 1-2
and `c` a single digit. -/
lemma searchP1_none_shapeB {b c : List Char}
    (hbd : ∀ x ∈ b, x.isDigit = true) (hb1 : 1 ≤ b.length) (hb2 : b.length ≤ 2)
    (hcd : ∀ x ∈ c, x.isDigit = true) (hc1 : c.length = 1) :
    ∀ a, (∀ x ∈ a, x.isDigit = true) → a.length ≤ 3 →
      searchWith matchP1 (a ++ '/' :: (b ++ '/' :: c)) = none := by
  intro a
  induction a with
  | nil =>
    intro _ _
    rw [List.nil_append, searchWith, matchP1_not_digit_head (by decide) _]
    exact searchP1_none_tail hcd hc1 b hbd hb2
  | cons x xs ih =>
    intro had ha3
    have hm : matchP1 ((x :: xs) ++ '/' :: (b ++ '/' :: c)) = none := by
      have htw1 : ((x :: xs) ++ '/' :: (b ++ '/' :: c)).takeWhile Char.isDigit = x :: xs :=
        takeWhile_append_cons
          (fun y hy => had y hy) (by decide)
      have hdw1 : ((x :: xs) ++ '/' :: (b ++ '/' :: c)).dropWhile Char.isDigit
          = '/' :: (b ++ '/' :: c) :=
        dropWhile_append_cons (fun y hy => had y hy) (by decide)
      unfold matchP1
      simp only [htw1, hdw1]
      by_cases hlen : (x :: xs).length ≤ 2
      · rw [if_pos ⟨by simp, hlen⟩, if_pos (by decide : isSep '/' = true),
          takeWhile_append_cons hbd (by decide), if_pos ⟨hb1, hb2⟩,
          dropWhile_append_cons hbd (by decide)]
        simp [isSep, takeWhile_eq_self_of_all hcd, hc1]
      · rw [if_neg (by intro hcon; exact hlen hcon.2)]
    have hm2 : matchP1 (x :: (xs ++ '/' :: (b ++ '/' :: c))) = none := hm
    rw [List.cons_append, searchWith, hm2]
    exact ih (fun y hy => had y (by simp [hy])) (by simp at ha3 ⊢; omega)

/-! ### Properties of the two-digit year fixup -/

lemma digit_toNat_lt {c : Char} (h : c.isDigit = true) : c.toNat - 48 < 10 := by
  simp only [Char.isDigit, Bool.and_eq_true, decide_eq_true_eq, ge_iff_le] at h
  have h2 : c.val.toNat ≤ 57 := UInt32.toNat_le_of_le (by decide) h.2
  simp only [Char.toNat]
  omega

lemma natOfDigits_two_lt_100 {c : List Char} (hcd : ∀ x ∈ c, x.isDigit = true)
    (hc : c.length = 2) : natOfDigits c < 100 := by
  obtain ⟨x, y, rfl⟩ : ∃ x y, c = [x, y] := by
    cases c with
    | nil => simp at hc
    | cons x t =>
      cases t with
      | nil => simp at hc
      | cons y t2 =>
        cases t2 with
        | nil => exact ⟨x, y, rfl⟩
        | cons z t3 => simp at hc
  have hx := digit_toNat_lt (hcd x (by simp))
  have hy := digit_toNat_lt (hcd y (by simp))
  simp only [natOfDigits, List.foldl]
  omega

lemma natToChars_year_props :
    ∀ n < 100, ((natToChars (n + 2000)).length = 4 ∧
        ∀ x ∈ natToChars (n + 2000), x.isDigit = true) ∧
      ((natToChars (n + 1900)).length = 4 ∧
        ∀ x ∈ natToChars (n + 1900), x.isDigit = true) := by decide

lemma yearFix_props {c : List Char} (hcd : ∀ x ∈ c, x.isDigit = true)
    (hc : c.length = 2) : (yearFix c).length = 4 ∧ ∀ x ∈ yearFix c, x.isDigit = true := by
  have hlt := natOfDigits_two_lt_100 hcd hc
  have hp := natToChars_year_props (natOfDigits c) hlt
  unfold yearFix
  split
  · exact hp.1
  · exact hp.2

/-! ### Stability of already-normalized dates -/

lemma mkDMY_chars {a b c : List Char}
    (had : ∀ x ∈ a, x.isDigit = true) (hbd : ∀ x ∈ b, x.isDigit = true)
    (hcd : ∀ x ∈ c, x.isDigit = true) :
    ∀ x ∈ mkDMY a b c, x.isDigit = true ∨ x = '/' := by
  intro x hx
  unfold mkDMY at hx
  simp only [List.mem_append, List.mem_cons] at hx
  rcases hx with h | rfl | h | rfl | h
  · exact Or.inl (had x h)
  · exact Or.inr rfl
  · exact Or.inl (hbd x h)
  · exact Or.inr rfl
  · exact Or.inl (hcd x h)

lemma normalizeDate_stable {a b c : List Char}
    (had : ∀ x ∈ a, x.isDigit = true) (hbd : ∀ x ∈ b, x.isDigit = true)
    (hcd : ∀ x ∈ c, x.isDigit = true)
    (ha1 : 1 ≤ a.length) (hb1 : 1 ≤ b.length) (hb2 : b.length ≤ 2)
    (hshape : (a.length ≤ 2 ∧ 3 ≤ c.length ∧ c.length ≤ 4) ∨
              (2 ≤ a.length ∧ a.length ≤ 3 ∧ c.length = 1)) :
    normalizeDate (String.mk (mkDMY a b c)) = String.mk (mkDMY a b c) := by
  have hchars := mkDMY_chars had hbd hcd
  have hsub : subDateChars (mkDMY a b c) = mkDMY a b c := by
    refine subDateChars_eq_self_of (fun x hx => ?_)
    rcases hchars x hx with h | rfl
    · exact digit_isDateKeep h
    · decide
  have hstrip : pyStrip (mkDMY a b c) = mkDMY a b c := by
    refine pyStrip_eq_self_of (fun x hx => ?_)
    rcases hchars x hx with h | rfl
    · exact digit_not_pySpace h
    · decide
  have hbne : (b.head?.getD ' ').isAlpha = false := by
    cases b with
    | nil => simp at hb1
    | cons y ys => simpa using digit_not_alpha (hbd y (by simp))
  have hdata : (String.mk (mkDMY a b c)).data = mkDMY a b c := rfl
  unfold normalizeDate
  rcases hshape with ⟨ha2, hc3, hc4⟩ | ⟨ha2, ha3, hc1⟩
  · have hm : matchP1 (a ++ '/' :: b ++ '/' :: c)
        = some (a, b, (c.takeWhile Char.isDigit).take 4) :=
      matchP1_of had ha1 ha2 (by decide) hbd hb1 hb2 (by decide)
        (by rw [takeWhile_eq_self_of_all hcd]; omega)
    rw [takeWhile_eq_self_of_all hcd, List.take_of_length_le hc4] at hm
    have hm' : matchP1 (mkDMY a b c) = some (a, b, c) := by
      unfold mkDMY
      rw [show a ++ '/' :: (b ++ '/' :: c) = a ++ '/' :: b ++ '/' :: c by simp]
      exact hm
    have hs : searchWith matchP1 (mkDMY a b c) = some (a, b, c) :=
      searchWith_some_of hm'
    simp only [hdata, hsub, hstrip, hs]
    refine congrArg String.mk ?_
    unfold formatDMY mkDMY
    rw [if_neg (by simp [hbne]), if_neg (by omega), if_neg (by omega)]
    simp
  · have hp1 : searchWith matchP1 (mkDMY a b c) = none :=
      searchP1_none_shapeB hbd hb1 hb2 hcd hc1 a had ha3
    have hm2 : matchP2 (a ++ '/' :: b ++ '/' :: c)
        = some (a, b, (c.takeWhile Char.isDigit).take 2) :=
      matchP2_of had ha2 (by omega) (by decide) hbd hb1 hb2 (by decide)
        (by rw [takeWhile_eq_self_of_all hcd]; omega)
    rw [takeWhile_eq_self_of_all hcd, List.take_of_length_le (by omega)] at hm2
    have hm2' : matchP2 (mkDMY a b c) = some (a, b, c) := by
      unfold mkDMY
      rw [show a ++ '/' :: (b ++ '/' :: c) = a ++ '/' :: b ++ '/' :: c by simp]
      exact hm2
    have hs2 : searchWith matchP2 (mkDMY a b c) = some (a, b, c) :=
      searchWith_some_of hm2'
    simp only [hdata, hsub, hstrip, hp1, hs2]
    refine congrArg String.mk ?_
    unfold formatDMY mkDMY
    rw [if_neg (by simp [hbne]), if_neg (by omega), if_neg (by omega)]
    simp

/-! ### Pattern 2 only ever fires with a one-digit final group

Pattern 1 is searched first.  If the final group of a pattern-2 match had two
digits, the last two digits of its leading group would start a pattern-1
match, so pattern 1 could not have failed. -/

lemma mem_of_mem_dropWhile {p : Char → Bool} {l : List Char} {a : Char}
    (h : a ∈ l.dropWhile p) : a ∈ l := by
  induction l with
  | nil => simpa [List.dropWhile] using h
  | cons x xs ih =>
    rw [List.dropWhile_cons] at h
    by_cases hx : p x = true
    · simp only [hx, if_true] at h
      exact List.mem_cons_of_mem x (ih h)
    · rw [Bool.not_eq_true] at hx
      simp only [hx] at h
      simpa using h

lemma p2_third_group_len_one {t a b c : List Char}
    (h1 : searchWith matchP1 t = none) (h2 : searchWith matchP2 t = some (a, b, c)) :
    c.length = 1 := by
  obtain ⟨n, hn⟩ := searchWith_exists_of_some h2
  obtain ⟨s1, s2, rest, heq, had, ha2, ha4, hbd, hb1, hb2, hs1, hs2, hc, hrun⟩ :=
    matchP2_decomp hn
  by_contra hne
  have hrun2 : 2 ≤ (rest.takeWhile Char.isDigit).length := by
    rcases Nat.lt_or_ge (rest.takeWhile Char.isDigit).length 2 with hlt | hge
    · exfalso
      apply hne
      rw [hc, List.length_take]
      omega
    · exact hge
  have hdropt : t.drop (n + (a.length - 2)) = a.drop (a.length - 2) ++ s1 :: b ++ s2 :: rest := by
    have e1 : t.drop (n + (a.length - 2)) = (t.drop n).drop (a.length - 2) :=
      (List.drop_drop _ _ _).symm
    rw [e1, heq,
      List.drop_append_of_le_length (by simp only [List.length_append, List.length_cons]; omega),
      List.drop_append_of_le_length (by omega)]
  have hmatch : matchP1 (a.drop (a.length - 2) ++ s1 :: b ++ s2 :: rest)
      = some (a.drop (a.length - 2), b, ((rest.takeWhile Char.isDigit).take 4)) :=
    matchP1_of (fun x hx => had x (List.drop_subset _ _ hx))
      (by rw [List.length_drop]; omega) (by rw [List.length_drop]; omega)
      hs1 hbd hb1 hb2 hs2 hrun2
  obtain ⟨g2, hg2⟩ := searchWith_isSome_of (f := matchP1) (n := n + (a.length - 2))
    (hdropt ▸ hmatch)
  rw [h1] at hg2
  exact Option.noConfusion hg2

/-! ### Pattern 3 never matches after the pre-cleaning

The pre-cleaning replaces every letter by a space, and pattern 3 requires at
least one letter for its month group. -/

lemma matchP3Tail_has_alpha {r m y : List Char} (h : matchP3Tail r = some (m, y)) :
    ∃ x ∈ r, x.isAlpha = true := by
  unfold matchP3Tail at h
  split at h
  case isFalse => exact absurd h (by simp)
  case isTrue h1 =>
    split at h
    case isFalse => exact absurd h (by simp)
    case isTrue h2 =>
      obtain ⟨x, hx⟩ := List.exists_mem_of_length_pos (by omega :
        0 < ((r.dropWhile isPySpace).takeWhile Char.isAlpha).length)
      have hprops := mem_of_mem_takeWhile hx
      exact ⟨x, mem_of_mem_dropWhile hprops.1, hprops.2⟩

lemma matchP3_none_of_no_alpha {t : List Char} (h : ∀ x ∈ t, x.isAlpha = false) :
    matchP3 t = none := by
  have hnd : ∀ x ∈ t.dropWhile Char.isDigit, x.isAlpha = false :=
    fun x hx => h x (mem_of_mem_dropWhile hx)
  have htail : matchP3Tail (t.dropWhile Char.isDigit) = none := by
    cases hmt : matchP3Tail (t.dropWhile Char.isDigit) with
    | none => rfl
    | some my =>
      obtain ⟨m, y⟩ := my
      obtain ⟨x, hx, ha⟩ := matchP3Tail_has_alpha hmt
      rw [hnd x hx] at ha
      exact Bool.noConfusion ha
  have hsuf : ∀ r2, ordSuffix (t.dropWhile Char.isDigit) = some r2 →
      matchP3Tail r2 = none := by
    intro r2 hr2
    have hsub : ∀ x ∈ r2, x ∈ t.dropWhile Char.isDigit := by
      cases hl : t.dropWhile Char.isDigit with
      | nil => rw [hl] at hr2; exact absurd hr2 (by simp [ordSuffix])
      | cons c1 rest1 =>
        cases rest1 with
        | nil => rw [hl] at hr2; exact absurd hr2 (by simp [ordSuffix])
        | cons c2 rest =>
          rw [hl] at hr2
          simp only [ordSuffix] at hr2
          split at hr2
          case isFalse => exact absurd hr2 (by simp)
          case isTrue =>
            cases hr2
            intro x hx
            simp [hx]
    cases hmt : matchP3Tail r2 with
    | none => rfl
    | some my =>
      obtain ⟨m, y⟩ := my
      obtain ⟨x, hx, ha⟩ := matchP3Tail_has_alpha hmt
      rw [hnd x (hsub x hx)] at ha
      exact Bool.noConfusion ha
  unfold matchP3
  by_cases hcond : 1 ≤ (t.takeWhile Char.isDigit).length ∧
      (t.takeWhile Char.isDigit).length ≤ 2
  · rw [if_pos hcond]
    cases hord : ordSuffix (t.dropWhile Char.isDigit) with
    | none => simp [hord, htail]
    | some r2 => simp [hord, hsuf r2 hord, htail]
  · rw [if_neg hcond]

lemma mem_of_mem_pyStrip {l : List Char} {x : Char} (h : x ∈ pyStrip l) : x ∈ l := by
  unfold pyStrip at h
  rw [List.mem_reverse] at h
  have h2 := mem_of_mem_dropWhile h
  rw [List.mem_reverse] at h2
  exact mem_of_mem_dropWhile h2

lemma stripped_no_alpha (s : String) :
    ∀ x ∈ pyStrip (subDateChars s.data), x.isAlpha = false := by
  intro x hx
  have hx2 := mem_of_mem_pyStrip hx
  unfold subDateChars at hx2
  rw [List.mem_map] at hx2
  obtain ⟨c, _, hc⟩ := hx2
  by_cases hk : isDateKeep c = true
  · rw [if_pos hk] at hc
    subst hc
    simp only [isDateKeep, Bool.or_eq_true, decide_eq_true_eq] at hk
    rcases hk with (((hd | rfl) | rfl) | rfl) | rfl
    · exact digit_not_alpha hd
    · decide
    · decide
    · decide
    · decide
  · rw [Bool.not_eq_true] at hk
    rw [hk] at hc
    simp only [Bool.false_eq_true, if_false] at hc
    subst hc
    decide

/-! ### Idempotence of the date normalization -/

theorem normalizeDate_idem (s : String) :
    normalizeDate (normalizeDate s) = normalizeDate s := by
  rcases hp1 : searchWith matchP1 (pyStrip (subDateChars s.data)) with _ | ⟨a, b, c⟩
  case some =>
    obtain ⟨n, hn⟩ := searchWith_exists_of_some hp1
    obtain ⟨s1, s2, rest, _, had, ha1, ha2, hbd, hb1, hb2, _, _, hc, hrun⟩ :=
      matchP1_decomp hn
    have hcd : ∀ x ∈ c, x.isDigit = true := by
      intro x hx
      rw [hc] at hx
      exact (mem_of_mem_takeWhile (List.take_subset _ _ hx)).2
    have hclen : 2 ≤ c.length ∧ c.length ≤ 4 := by
      rw [hc, List.length_take]
      omega
    have hbne : (b.head?.getD ' ').isAlpha = false := by
      cases b with
      | nil => simp at hb1
      | cons y ys => simpa using digit_not_alpha (hbd y (by simp))
    have hc2d : ∀ x ∈ (if c.length = 2 then yearFix c else c), x.isDigit = true := by
      split
      case isTrue h2 => exact (yearFix_props hcd h2).2
      case isFalse => exact hcd
    have hc2len : 3 ≤ (if c.length = 2 then yearFix c else c).length ∧
        (if c.length = 2 then yearFix c else c).length ≤ 4 := by
      split
      case isTrue h2 =>
        rw [(yearFix_props hcd h2).1]
        omega
      case isFalse h2 => omega
    have hout : normalizeDate s
        = String.mk (mkDMY a b (if c.length = 2 then yearFix c else c)) := by
      simp only [normalizeDate, hp1]
      refine congrArg String.mk ?_
      unfold formatDMY mkDMY
      rw [if_neg (by simp [hbne]), if_neg (by omega)]
      simp
    rw [hout]
    exact normalizeDate_stable had hbd hc2d ha1 hb1 hb2
      (Or.inl ⟨ha2, hc2len.1, hc2len.2⟩)
  case none =>
    rcases hp2 : searchWith matchP2 (pyStrip (subDateChars s.data)) with _ | ⟨a, b, c⟩
    case some =>
      have hc1 : c.length = 1 := p2_third_group_len_one hp1 hp2
      obtain ⟨n, hn⟩ := searchWith_exists_of_some hp2
      obtain ⟨s1, s2, rest, _, had, ha2, ha4, hbd, hb1, hb2, _, _, hc, hrun⟩ :=
        matchP2_decomp hn
      have hcd : ∀ x ∈ c, x.isDigit = true := by
        intro x hx
        rw [hc] at hx
        exact (mem_of_mem_takeWhile (List.take_subset _ _ hx)).2
      have hbne : (b.head?.getD ' ').isAlpha = false := by
        cases b with
        | nil => simp at hb1
        | cons y ys => simpa using digit_not_alpha (hbd y (by simp))
      by_cases hlen4 : a.length = 4
      · have hout : normalizeDate s = String.mk (mkDMY c b a) := by
          simp only [normalizeDate, hp1, hp2]
          refine congrArg String.mk ?_
          unfold formatDMY mkDMY
          rw [if_neg (by simp [hbne]), if_pos hlen4, if_neg (by omega)]
          simp
        rw [hout]
        exact normalizeDate_stable hcd hbd had (by omega) hb1 hb2
          (Or.inl ⟨by omega, by omega, by omega⟩)
      · have hout : normalizeDate s = String.mk (mkDMY a b c) := by
          simp only [normalizeDate, hp1, hp2]
          refine congrArg String.mk ?_
          unfold formatDMY mkDMY
          rw [if_neg (by simp [hbne]), if_neg hlen4, if_neg (by omega)]
          simp
        rw [hout]
        exact normalizeDate_stable had hbd hcd (by omega) hb1 hb2
          (Or.inr ⟨ha2, by omega, hc1⟩)
    case none =>
      have hp3 : searchWith matchP3 (pyStrip (subDateChars s.data)) = none :=
        searchWith_none_of (fun n => matchP3_none_of_no_alpha
          (fun x hx => stripped_no_alpha s x (List.mem_of_mem_drop hx)))
      have hid : normalizeDate s = s := by
        simp only [normalizeDate, hp1, hp2, hp3]
      rw [hid]
      exact hid

/-! ### Idempotence of the remaining post-processing steps -/

lemma filter_filter_self {p : Char → Bool} (l : List Char) :
    (l.filter p).filter p = l.filter p := by
  induction l with
  | nil => rfl
  | cons x xs ih =>
    by_cases hx : p x = true
    · simp [List.filter_cons, hx, ih]
    · rw [Bool.not_eq_true] at hx
      simp [List.filter_cons, hx, ih]

lemma filterAlnum_idem (s : String) : filterAlnum (filterAlnum s) = filterAlnum s := by
  unfold filterAlnum
  exact congrArg String.mk (filter_filter_self s.data)

lemma cleanKeep_idem {p : Char → Bool} (hna : "N/A".data.filter p = []) (s : String) :
    cleanKeep p (cleanKeep p s) = cleanKeep p s := by
  unfold cleanKeep
  by_cases hd : s.data.filter p = []
  · rw [if_pos hd]
    simp [hna]
  · rw [if_neg hd]
    have hdata : (String.mk (s.data.filter p)).data = s.data.filter p := rfl
    rw [hdata, filter_filter_self, if_neg hd]

lemma post_process_product_idem (prod : Product) :
    post_process_product (post_process_product prod) = post_process_product prod := by
  unfold post_process_product
  rcases prod with ⟨gd, hsn, qty, w, ow, wk, r, a⟩
  rcases hsn with _ | h <;> rcases qty with _ | q <;>
    simp [Option.map, cleanKeep_idem (p := fun c => c.isDigit || c = '.') (by decide),
      cleanKeep_idem (p := Char.isDigit) (by decide)]

lemma companyStep_idem (v x : Option String) :
    companyStep v (companyStep v x) = companyStep v x := by
  unfold companyStep
  by_cases ht : companyTrigger x = true
  · rw [if_pos ht]
    cases v with
    | none => rw [if_pos ht]
    | some c => split <;> rfl
  · rw [Bool.not_eq_true] at ht
    rw [ht]
    simp [ht]

lemma fssaiStep_idem (v x : Option String) :
    fssaiStep v (fssaiStep v x) = fssaiStep v x := by
  unfold fssaiStep
  by_cases ht : fssaiTrigger x = true
  · rw [if_pos ht]
    cases v with
    | none => rw [if_pos ht]
    | some c => split <;> rfl
  · rw [Bool.not_eq_true] at ht
    rw [ht]
    simp [ht]

lemma truthyOpt_some_ne {s : String} (h : ¬s = "") : truthyOpt (some s) = true := by
  simp [truthyOpt, h]

lemma truthyOpt_some_empty_false {s : String} (h : s = "") : truthyOpt (some s) = false := by
  simp [truthyOpt, h]

lemma invoiceStep_idem (x : Option String) :
    invoiceStep (invoiceStep x) = invoiceStep x := by
  unfold invoiceStep
  cases x with
  | none => simp [truthyOpt]
  | some s =>
    by_cases hs : s = ""
    · subst hs
      simp [truthyOpt]
    · rw [if_pos (truthyOpt_some_ne hs), Option.map_some']
      by_cases hf : filterAlnum s = ""
      · rw [if_neg (by rw [truthyOpt_some_empty_false hf]; exact Bool.false_ne_true)]
      · rw [if_pos (truthyOpt_some_ne hf), Option.map_some', filterAlnum_idem]

lemma formatDMY_ne_nil (a b c : List Char) : formatDMY a b c ≠ [] := by
  unfold formatDMY
  split
  · simp
  · split <;> simp

lemma normalizeDate_ne_empty {s : String} (h : s ≠ "") : normalizeDate s ≠ "" := by
  have hne : ∀ a b c : List Char, String.mk (formatDMY a b c) ≠ "" := by
    intro a b c hcon
    exact formatDMY_ne_nil a b c (congrArg String.data hcon)
  rcases hp1 : searchWith matchP1 (pyStrip (subDateChars s.data)) with _ | ⟨a, b, c⟩
  case some =>
    simpa [normalizeDate, hp1] using hne a b c
  case none =>
    rcases hp2 : searchWith matchP2 (pyStrip (subDateChars s.data)) with _ | ⟨a, b, c⟩
    case some =>
      simpa [normalizeDate, hp1, hp2] using hne a b c
    case none =>
      rcases hp3 : searchWith matchP3 (pyStrip (subDateChars s.data)) with _ | ⟨a, b, c⟩
      case some =>
        simpa [normalizeDate, hp1, hp2, hp3] using hne a b c
      case none =>
        simpa [normalizeDate, hp1, hp2, hp3] using h

lemma dateStep_idem (x : Option String) : dateStep (dateStep x) = dateStep x := by
  unfold dateStep
  cases x with
  | none => simp [truthyOpt]
  | some s =>
    by_cases hs : s = ""
    · subst hs
      simp [truthyOpt]
    · rw [if_pos (truthyOpt_some_ne hs), Option.map_some',
        if_pos (truthyOpt_some_ne (normalizeDate_ne_empty hs)), Option.map_some',
        normalizeDate_idem]

lemma productsStep_idem (x : Option (List Product)) :
    productsStep (productsStep x) = productsStep x := by
  cases x with
  | none => rfl
  | some ps =>
    by_cases hps : ps = []
    · subst hps
      simp [productsStep]
    · have h1 : productsStep (some ps) = some (ps.map post_process_product) := by
        simp only [productsStep]
        rw [if_neg hps]
      rw [h1]
      have h2 : productsStep (some (ps.map post_process_product))
          = some ((ps.map post_process_product).map post_process_product) := by
        simp only [productsStep]
        rw [if_neg (by simp [hps])]
      rw [h2, List.map_map]
      exact congrArg some (List.map_congr_left (fun p _ => post_process_product_idem p))

lemma convert_weight_to_kg_idem (w : PyWeight) :
    convert_weight_to_kg (convert_weight_to_kg w) = convert_weight_to_kg w := by
  cases w with
  | num q => rfl
  | s v =>
    by_cases hna : v = "N/A"
    · subst hna
      decide
    · cases hp : parseWeightMatch (v.data.filter notComma) with
      | none =>
        have h1 : convert_weight_to_kg (.s v) = .s (String.mk (v.data.filter notComma)) := by
          simp only [convert_weight_to_kg]
          rw [if_neg hna]
          simp only [hp]
        rw [h1]
        by_cases hna2 : String.mk (v.data.filter notComma) = "N/A"
        · simp only [convert_weight_to_kg]
          rw [if_pos hna2]
        · simp only [convert_weight_to_kg]
          rw [if_neg hna2]
          simp only [show (String.mk (v.data.filter notComma)).data
              = v.data.filter notComma from rfl, filter_filter_self, hp]
      | some vu =>
        by_cases hq : containsChars "qtl".data vu.2 = true
        · have h1 : convert_weight_to_kg (.s v) = .num (vu.1 * 100) := by
            simp only [convert_weight_to_kg]
            rw [if_neg hna]
            simp only [hp]
            rw [if_pos hq]
          rw [h1]
          rfl
        · by_cases ht : containsChars "ton".data vu.2 = true
          · have h1 : convert_weight_to_kg (.s v) = .num (vu.1 * 1000) := by
              simp only [convert_weight_to_kg]
              rw [if_neg hna]
              simp only [hp]
              rw [if_neg hq, if_pos ht]
            rw [h1]
            rfl
          · by_cases hk : containsChars "kg".data vu.2 = true
            · have h1 : convert_weight_to_kg (.s v) = .num vu.1 := by
                simp only [convert_weight_to_kg]
                rw [if_neg hna]
                simp only [hp]
                rw [if_neg hq, if_neg ht, if_pos hk]
              rw [h1]
              rfl
            · have h1 : convert_weight_to_kg (.s v)
                  = .s (String.mk (v.data.filter notComma)) := by
                simp only [convert_weight_to_kg]
                rw [if_neg hna]
                simp only [hp]
                rw [if_neg hq, if_neg ht, if_neg hk]
              rw [h1]
              by_cases hna2 : String.mk (v.data.filter notComma) = "N/A"
              · simp only [convert_weight_to_kg]
                rw [if_pos hna2]
              · simp only [convert_weight_to_kg]
                rw [if_neg hna2]
                simp only [show (String.mk (v.data.filter notComma)).data
                    = v.data.filter notComma from rfl, filter_filter_self, hp]
                rw [if_neg hq, if_neg ht, if_neg hk]

/-! ### Emptiness characterizations of the validation error components -/

lemma requiredFieldErrors_eq_nil_iff (r : Candidate) :
    requiredFieldErrors r = [] ↔
      truthyOpt r.company_name = true ∧ truthyOpt r.invoice_number = true ∧
      truthyOpt r.invoice_date = true ∧ ∃ ps, r.products = some ps ∧ ps ≠ [] := by
  unfold requiredFieldErrors
  cases hp : r.products with
  | none => simp
  | some ps =>
    by_cases hps : ps = []
    · subst hps
      simp
    · by_cases h1 : truthyOpt r.company_name = true <;>
        by_cases h2 : truthyOpt r.invoice_number = true <;>
        by_cases h3 : truthyOpt r.invoice_date = true <;>
        simp [h1, h2, h3, hps]

lemma invoiceNumberErrors_eq_nil_iff (x : Option String) :
    invoiceNumberErrors x = [] ↔
      ∀ s, x = some s → s ≠ "N/A" → s.data.any Char.isDigit = true := by
  cases x with
  | none => simp [invoiceNumberErrors]
  | some s =>
    by_cases hna : s = "N/A"
    · simp [invoiceNumberErrors, hna]
    · by_cases hd : s.data.any Char.isDigit = true
      · simp only [invoiceNumberErrors]
        rw [if_neg hna, if_pos hd]
        constructor
        · intro _ s2 heq _
          cases heq
          exact hd
        · intro _
          rfl
      · simp only [invoiceNumberErrors]
        rw [if_neg hna, if_neg hd]
        constructor
        · intro hcon
          exact absurd hcon (by simp)
        · intro hall
          exact absurd (hall s rfl hna) hd

lemma productErrorsFrom_eq_nil_iff (ps : List Product) :
    ∀ i, productErrorsFrom i ps = [] ↔
      ∀ q ∈ ps, q.quantity ≠ some "N/A" ∧ q.rate ≠ some "N/A" ∧ q.amount ≠ some "N/A" := by
  induction ps with
  | nil => simp [productErrorsFrom]
  | cons q qs ih =>
    intro i
    by_cases hq : q.quantity = some "N/A" <;> by_cases hr : q.rate = some "N/A" <;>
      by_cases ha : q.amount = some "N/A" <;>
      simp [productErrorsFrom, suspiciousFieldError, hq, hr, ha, ih (i + 1)]

/-! ### Invariants of the rate limiter operation semantics -/

lemma RateLimiter.wait_limiter_failed (rl : RateLimiter) (f : Bool) (t j : ℚ) :
    ((rl.wait_if_needed f t j).limiter).failed_files = rl.failed_files := by
  simp only [RateLimiter.wait_if_needed]
  split <;> rfl

lemma addFailed_nodup {l : List String} {f : String} (h : l.Nodup) :
    (if f ∈ l then l else l ++ [f]).Nodup := by
  split
  · exact h
  case isFalse hmem =>
    refine h.append (List.nodup_singleton f) ?_
    intro a ha hb
    rw [List.mem_singleton] at hb
    subst hb
    exact hmem ha

lemma RateLimiter.runOp_failed_nodup {rl : RateLimiter} (op : RLOp)
    (h : rl.failed_files.Nodup) : (rl.runOp op).failed_files.Nodup := by
  cases op with
  | addCall t => exact h
  | waitIfNeeded f t j =>
    rw [show (rl.runOp (.waitIfNeeded f t j)).failed_files = rl.failed_files from
      rl.wait_limiter_failed f t j]
    exact h
  | addFailedFile f =>
    have hf : (rl.add_failed_file f).failed_files =
        if f ∈ rl.failed_files then rl.failed_files else rl.failed_files ++ [f] := by
      unfold RateLimiter.add_failed_file
      split <;> rfl
    rw [show (rl.runOp (.addFailedFile f)) = rl.add_failed_file f from rfl, hf]
    exact addFailed_nodup h
  | clearFailedFiles => exact List.nodup_nil
  | setBatchSize n => exact h
  | getUtilization t => exact h

lemma RateLimiter.runOps_failed_nodup (ops : List RLOp) :
    ∀ rl : RateLimiter, rl.failed_files.Nodup → (rl.runOps ops).failed_files.Nodup := by
  induction ops with
  | nil => exact fun rl h => h
  | cons op ops ih => exact fun rl h => ih (rl.runOp op) (rl.runOp_failed_nodup op h)

lemma OptimizedRateLimiter.wait_limiter_failed_opt (rl : OptimizedRateLimiter) (f : Bool) (t : ℚ) :
    ((rl.wait_if_needed f t).limiter).failed_files = rl.failed_files := by
  simp only [OptimizedRateLimiter.wait_if_needed]
  split <;> rfl

lemma OptimizedRateLimiter.runOp_failed_nodup_opt {rl : OptimizedRateLimiter} (op : RLOp)
    (h : rl.failed_files.Nodup) : (rl.runOp op).failed_files.Nodup := by
  cases op with
  | addCall t => exact h
  | waitIfNeeded f t j =>
    rw [show (rl.runOp (.waitIfNeeded f t j)).failed_files = rl.failed_files from
      rl.wait_limiter_failed_opt f t]
    exact h
  | addFailedFile f =>
    have hf : (rl.add_failed_file f).failed_files =
        if f ∈ rl.failed_files then rl.failed_files else rl.failed_files ++ [f] := by
      unfold OptimizedRateLimiter.add_failed_file
      split <;> rfl
    rw [show (rl.runOp (.addFailedFile f)) = rl.add_failed_file f from rfl, hf]
    exact addFailed_nodup h
  | clearFailedFiles => exact List.nodup_nil
  | setBatchSize n => exact h
  | getUtilization t => exact h

lemma OptimizedRateLimiter.runOps_failed_nodup_opt (ops : List RLOp) :
    ∀ rl : OptimizedRateLimiter, rl.failed_files.Nodup →
      (rl.runOps ops).failed_files.Nodup := by
  induction ops with
  | nil => exact fun rl h => h
  | cons op ops ih => exact fun rl h => ih (rl.runOp op) (rl.runOp_failed_nodup_opt op h)

lemma OptimizedRateLimiter.runOp_max (rl : OptimizedRateLimiter) (op : RLOp) :
    (rl.runOp op).max_calls_per_min = rl.max_calls_per_min := by
  cases op with
  | addCall t => rfl
  | waitIfNeeded f t j =>
    show ((rl.wait_if_needed f t).limiter).max_calls_per_min = rl.max_calls_per_min
    simp only [OptimizedRateLimiter.wait_if_needed]
    split <;> rfl
  | addFailedFile f =>
    show (rl.add_failed_file f).max_calls_per_min = rl.max_calls_per_min
    unfold OptimizedRateLimiter.add_failed_file
    split <;> rfl
  | clearFailedFiles => rfl
  | setBatchSize n => rfl
  | getUtilization t => rfl

lemma OptimizedRateLimiter.runOp_calls_bound {rl : OptimizedRateLimiter} (op : RLOp)
    (h : rl.calls.length ≤ 2 * rl.max_calls_per_min) :
    (rl.runOp op).calls.length ≤ 2 * rl.max_calls_per_min := by
  cases op with
  | addCall t =>
    simp only [OptimizedRateLimiter.runOp, OptimizedRateLimiter.add_call, List.length_drop,
      List.length_append, List.length_cons]
    omega
  | waitIfNeeded f t j =>
    have hev : ((rl.wait_if_needed f t).limiter).calls
        = rl.calls.dropWhile (fun u => decide (rl.window_size_sec < t - u)) := by
      simp only [OptimizedRateLimiter.wait_if_needed, OptimizedRateLimiter.evict]
      split <;> rfl
    simp only [OptimizedRateLimiter.runOp, hev]
    exact le_trans ((List.dropWhile_sublist _).length_le) h
  | addFailedFile f =>
    have : (rl.add_failed_file f).calls = rl.calls := by
      unfold OptimizedRateLimiter.add_failed_file
      split <;> rfl
    simp only [OptimizedRateLimiter.runOp, this]
    exact h
  | clearFailedFiles => exact h
  | setBatchSize n => exact h
  | getUtilization t =>
    simp only [OptimizedRateLimiter.runOp, OptimizedRateLimiter.get_utilization,
      OptimizedRateLimiter.evict]
    exact le_trans ((List.dropWhile_sublist _).length_le) h

lemma OptimizedRateLimiter.runOps_calls_bound (ops : List RLOp) :
    ∀ rl : OptimizedRateLimiter, rl.calls.length ≤ 2 * rl.max_calls_per_min →
      (rl.runOps ops).calls.length ≤ 2 * (rl.runOps ops).max_calls_per_min := by
  induction ops with
  | nil => exact fun rl h => h
  | cons op ops ih =>
    intro rl h
    have h2 := ih (rl.runOp op) (by rw [rl.runOp_max op]; exact rl.runOp_calls_bound op h)
    exact h2

/-! ### Field projections of the result dictionaries -/

lemma noResultOutcome_success (path : String) (l : List String) :
    (noResultOutcome path l).success = false := by
  unfold noResultOutcome
  split <;> rfl

lemma noResultOutcome_error_isSome (path : String) (l : List String) :
    (noResultOutcome path l).error.isSome = true := by
  unfold noResultOutcome
  split <;> rfl

/-! ### The nominal wait time of a limiter never touched by `set_batch_size` -/

lemma RateLimiter.runOp_cwt (rl : RateLimiter) (op : RLOp)
    (hop : ∀ n : ℤ, op ≠ RLOp.setBatchSize n) :
    (rl.runOp op).current_wait_time = rl.current_wait_time := by
  cases op with
  | addCall t => rfl
  | waitIfNeeded f t j =>
    show ((rl.wait_if_needed f t j).limiter).current_wait_time = rl.current_wait_time
    simp only [RateLimiter.wait_if_needed]
    split <;> rfl
  | addFailedFile f =>
    show (rl.add_failed_file f).current_wait_time = rl.current_wait_time
    unfold RateLimiter.add_failed_file
    split <;> rfl
  | clearFailedFiles => rfl
  | setBatchSize n => exact absurd rfl (hop n)
  | getUtilization t => rfl

lemma RateLimiter.runOps_cwt :
    ∀ (ops : List RLOp), (∀ n : ℤ, RLOp.setBatchSize n ∉ ops) →
      ∀ rl : RateLimiter, (rl.runOps ops).current_wait_time = rl.current_wait_time
  | [], _, rl => rfl
  | op :: ops, hops, rl => by
    have hop : ∀ n : ℤ, op ≠ RLOp.setBatchSize n := by
      intro n he
      exact hops n (by rw [← he]; exact List.mem_cons_self op ops)
    have h1 : ∀ n : ℤ, RLOp.setBatchSize n ∉ ops :=
      fun n hn => hops n (List.mem_cons_of_mem _ hn)
    calc ((rl.runOp op).runOps ops).current_wait_time
        = (rl.runOp op).current_wait_time := RateLimiter.runOps_cwt ops h1 (rl.runOp op)
      _ = rl.current_wait_time := rl.runOp_cwt op hop

/-! ### The blocking condition in utilization form -/

lemma utilization_cond_iff (cap count : ℕ) (hcap : 0 < cap) :
    ((cap : ℚ) * (4 / 5) ≤ (count : ℚ)) ↔
      ((80 : ℚ) ≤ (count : ℚ) / (cap : ℚ) * 100) := by
  have hc : (0 : ℚ) < (cap : ℚ) := by exact_mod_cast hcap
  rw [div_mul_eq_mul_div, le_div_iff₀ hc]
  constructor <;> intro h <;> linarith

lemma RateLimiter.waited_eq (rl : RateLimiter) (f : Bool) (t j : ℚ) :
    (rl.wait_if_needed f t j).waited =
      (f || decide ((((rl.evict t).max_calls_per_min : ℤ) -
            ((rl.evict t).calls.length : ℤ)) < 3) ||
       decide (((rl.evict t).max_calls_per_min : ℚ) * (4 / 5) ≤
            ((rl.evict t).calls.length : ℚ))) := by
  simp only [RateLimiter.wait_if_needed]
  split
  case isTrue h => exact h.symm
  case isFalse h =>
    simp only [Bool.not_eq_true] at h
    exact h.symm

/-! ### Field projections of the final product cleanup -/

lemma finalCleanProduct_fields (p : Product) :
    (finalCleanProduct p).hsn_sac_code = p.hsn_sac_code ∧
    (finalCleanProduct p).quantity = cleanNumericField p.quantity ∧
    (finalCleanProduct p).rate = cleanNumericField p.rate ∧
    (finalCleanProduct p).amount = cleanNumericField p.amount := by
  simp only [finalCleanProduct]
  cases hw : p.weight <;> simp

lemma cleanNumericField_moneyChars (v : Option String) :
    cleanNumericField v = none ∨ cleanNumericField v = some "N/A" ∨
      ∃ s, cleanNumericField v = some s ∧ ∀ c ∈ s.data, isMoneyChar c = true := by
  cases v with
  | none => exact Or.inl rfl
  | some s =>
    by_cases h : s = "N/A"
    · right; left
      simp [cleanNumericField, h]
    · right; right
      refine ⟨String.mk (s.data.filter isMoneyChar), by simp [cleanNumericField, h], ?_⟩
      intro c hc
      exact (List.mem_filter.mp hc).2

lemma post_product_hsn (p : Product) :
    (post_process_product p).hsn_sac_code = none ∨
    (post_process_product p).hsn_sac_code = some "N/A" ∨
      ∃ s, (post_process_product p).hsn_sac_code = some s ∧ s ≠ "" ∧
        ∀ c ∈ s.data, c.isDigit = true := by
  cases hh : p.hsn_sac_code with
  | none =>
    left
    simp [post_process_product, hh]
  | some s =>
    right
    by_cases hf : s.data.filter Char.isDigit = []
    · left
      simp [post_process_product, hh, cleanKeep, hf]
    · right
      refine ⟨String.mk (s.data.filter Char.isDigit),
        by simp [post_process_product, hh, cleanKeep, hf], ?_, ?_⟩
      · intro he
        apply hf
        have h2 : (String.mk (s.data.filter Char.isDigit)).data = ("" : String).data := by
          rw [he]
        simpa using h2
      · intro c hc
        exact (List.mem_filter.mp hc).2

lemma post_final_quantity (p : Product) :
    cleanNumericField ((post_process_product p).quantity) = none ∨
    cleanNumericField ((post_process_product p).quantity) = some "N/A" ∨
      ∃ s, cleanNumericField ((post_process_product p).quantity) = some s ∧
        ∀ c ∈ s.data, (c.isDigit || c = '.') = true := by
  cases hq : p.quantity with
  | none =>
    left
    simp [post_process_product, hq, cleanNumericField]
  | some s =>
    by_cases hf : s.data.filter (fun c => c.isDigit || c = '.') = []
    · right; left
      simp [post_process_product, hq, cleanKeep, hf, cleanNumericField]
    · by_cases hna : String.mk (s.data.filter (fun c => c.isDigit || c = '.')) = "N/A"
      · right; left
        simp [post_process_product, hq, cleanKeep, hf, cleanNumericField, hna]
      · right; right
        refine ⟨String.mk ((String.mk (s.data.filter (fun c => c.isDigit || c = '.'))).data.filter
            isMoneyChar), ?_, ?_⟩
        · simp [post_process_product, hq, cleanKeep, hf, cleanNumericField, hna]
        · intro c hc
          have h2 := List.mem_filter.mp hc
          exact (List.mem_filter.mp h2.1).2

lemma finalClean_post_invariant (p0 : Product) :
    productNumericInvariant (finalCleanProduct (post_process_product p0)) := by
  obtain ⟨h1, h2, h3, h4⟩ := finalCleanProduct_fields (post_process_product p0)
  refine ⟨?_, ?_, ?_, ?_⟩
  · rw [h1]
    exact post_product_hsn p0
  · rw [h2]
    exact post_final_quantity p0
  · rw [h3]
    exact cleanNumericField_moneyChars _
  · rw [h4]
    exact cleanNumericField_moneyChars _

lemma process_with_gemini_result_shape (env : Env) (text : String) (pa : Option String)
    (ma : ℕ) (fp : Option String) (failed : List String) (e : Candidate)
    (h : (process_with_gemini env text pa ma fp failed).result = some e) :
    ∃ r0, e = post_process_extraction env.companySearch env.fssaiSearch r0 text := by
  simp only [process_with_gemini] at h
  rcases Option.map_eq_some'.mp h with ⟨r0, hr0, heq⟩
  exact ⟨r0, heq.symm⟩

lemma successResult_products_invariant (env : Env) (pat text : String) (r0 : Candidate)
    (ps : List Product)
    (h : (successResult env pat
        (post_process_extraction env.companySearch env.fssaiSearch r0 text)).products
      = some ps) :
    ∀ q ∈ ps, productNumericInvariant q := by
  intro q hq
  rcases hr : r0.products with _ | l
  · simp [successResult, post_process_extraction, productsStep, hr] at h
  · by_cases hl : l = []
    · subst hl
      simp [successResult, post_process_extraction, productsStep, hr] at h
      rw [h] at hq
      simp at hq
    · have hmap : (post_process_extraction env.companySearch env.fssaiSearch r0 text).products
          = some (l.map post_process_product) := by
        simp [post_process_extraction, productsStep, hr, hl]
      have hmne : l.map post_process_product ≠ [] := by
        simpa using hl
      have hps : ps = (l.map post_process_product).map finalCleanProduct := by
        have h2 := h
        simp only [successResult, hmap] at h2
        rw [if_neg hmne] at h2
        exact (Option.some.injEq _ _ ▸ h2).symm
      rw [hps] at hq
      rcases List.mem_map.mp hq with ⟨q1, hq1, hq2⟩
      rcases List.mem_map.mp hq1 with ⟨p0, hp0, hp1⟩
      rw [← hq2, ← hp1]
      exact finalClean_post_invariant p0

/-! ### The claims -/

/-- C2: the specification says date normalization accepts `DD-MM-YYYY`,
`YYYY-MM-DD` and day-then-month-name forms and always outputs `DD/MM/YYYY`.
The code strips every letter from the date string before the patterns are
tried, so the month-name pattern (pattern 3) can never match — a month-name
date is returned unmodified — and a `YYYY-MM-DD` date is captured by the
day-first pattern starting inside the year digits, producing a wrong
rewriting instead of the documented one.  The numeric `DD-MM-YYYY` form and
the two-digit-year mapping do behave as documented. -/
theorem date_month_name_never_normalized :
    (∀ s : String, searchWith matchP3 (pyStrip (subDateChars s.data)) = none) ∧
    normalizeDate "21-06-2023" = "21/06/2023" ∧
    normalizeDate "21/06/23" = "21/06/2023" ∧
    normalizeDate "21st June, 2023" = "21st June, 2023" ∧
    normalizeDate "2023-06-21" = "23/06/2021" := by
  refine ⟨?_, by decide, by decide, by decide, by decide⟩
  intro s
  apply searchWith_none_of
  intro n
  apply matchP3_none_of_no_alpha
  intro x hx
  exact stripped_no_alpha s x (List.mem_of_mem_drop hx)

/-- C5 counterexample: the base `RateLimiter.add_call` appends
unconditionally, so 31 recorded calls leave 31 timestamps in the queue —
more than twice the cap of 15.  The claimed bound fails for the base
limiter. -/
theorem rate_limiter_queue_unbounded :
    2 * (RateLimiter.init 15 60).max_calls_per_min <
      ((RateLimiter.init 15 60).runOps
        (List.replicate 31 (RLOp.addCall 0))).calls.length := by
  decide

/-- C5 (amended): the duplicate-free failed-file record is an invariant of
both limiters under every operation sequence, but the queue bound of at most
twice the cap holds only for the optimized limiter, whose deque carries
`maxlen = 2 * max_calls_per_min`; the base limiter's queue is unbounded. -/
theorem rate_limiter_bounds_amended (ops : List RLOp) :
    (∀ rl : RateLimiter, rl.failed_files.Nodup → (rl.runOps ops).failed_files.Nodup) ∧
    (∀ rl : OptimizedRateLimiter, rl.failed_files.Nodup →
      rl.calls.length ≤ 2 * rl.max_calls_per_min →
      (rl.runOps ops).failed_files.Nodup ∧
      (rl.runOps ops).calls.length ≤ 2 * (rl.runOps ops).max_calls_per_min) :=
  ⟨fun rl h => RateLimiter.runOps_failed_nodup ops rl h,
   fun rl h1 h2 => ⟨OptimizedRateLimiter.runOps_failed_nodup_opt ops rl h1,
     OptimizedRateLimiter.runOps_calls_bound ops rl h2⟩⟩

/-- C5 witness: the amended invariants evaluated on concrete operation
sequences from the initial states. -/
theorem rate_limiter_bounds_amended_witness :
    ((RateLimiter.init 15 60).runOps
      [RLOp.addFailedFile "a", RLOp.addFailedFile "a"]).failed_files.Nodup ∧
    ((OptimizedRateLimiter.init 15 60).runOps
        (List.replicate 31 (RLOp.addCall 0))).calls.length ≤
      2 * ((OptimizedRateLimiter.init 15 60).runOps
        (List.replicate 31 (RLOp.addCall 0))).max_calls_per_min :=
  ⟨(rate_limiter_bounds_amended [RLOp.addFailedFile "a", RLOp.addFailedFile "a"]).1
      (RateLimiter.init 15 60) List.nodup_nil,
   ((rate_limiter_bounds_amended (List.replicate 31 (RLOp.addCall 0))).2
      (OptimizedRateLimiter.init 15 60) List.nodup_nil (by decide)).2⟩

/-- C7: post-processing is idempotent — applying `post_process_extraction` a
second time (with the same text scans and source text) changes nothing, and
the weight conversion is idempotent as well.  This holds for every choice of
the two salvage scans, in particular for the source's concrete scans. -/
theorem post_process_idempotent :
    (∀ (csearch fsearch : String → Option String) (r : Candidate) (text : String),
      post_process_extraction csearch fsearch
          (post_process_extraction csearch fsearch r text) text =
        post_process_extraction csearch fsearch r text) ∧
    (∀ w : PyWeight, convert_weight_to_kg (convert_weight_to_kg w) = convert_weight_to_kg w) := by
  constructor
  · intro cs fs r text
    simp only [post_process_extraction, companyStep_idem, invoiceStep_idem,
      fssaiStep_idem, dateStep_idem, productsStep_idem]
  · exact convert_weight_to_kg_idem

/-- C9 counterexample: with a full window (cap 15, 15 timestamps inside the
window) a forced `wait_if_needed` call blocks, and its event trace sleeps
between acquiring and releasing the mutex — the sleep happens while the lock
is held, contrary to the claim. -/
theorem sleep_holds_lock_cex :
    sleepsWhileLocked (rlC9.waitTrace true 0 1) = true := by
  decide

/-- C9 (amended): in the source the whole body of `wait_if_needed` —
eviction, the blocking decision and `time.sleep` — sits inside the
`with self.lock` block, so the sleep is performed while holding the
RateLimiter lock on every blocking call: the trace sleeps under the lock
exactly when the call blocks. -/
theorem sleep_holds_lock_amended (rl : RateLimiter) (f : Bool) (t j : ℚ) :
    sleepsWhileLocked (rl.waitTrace f t j) = (rl.wait_if_needed f t j).waited := by
  simp only [RateLimiter.waitTrace]
  split
  case isTrue h =>
    rw [h]
    rfl
  case isFalse h =>
    simp only [Bool.not_eq_true] at h
    rw [h]
    rfl

/-- C10: a limiter reached from the constructor without any `set_batch_size`
call still has its nominal wait time at 0, so a blocking `wait_if_needed`
(here: a forced wait) with at least 2 calls remaining under the cap reports
that it waited but sleeps for 0 seconds — the raise-to-a-quarter-window
branch needs at most 1 remaining call and does not apply. -/
theorem fresh_limiter_zero_wait (cap : ℕ) (window : ℚ) (ops : List RLOp) (rl : RateLimiter)
    (hrl : rl = (RateLimiter.init cap window).runOps ops)
    (hops : ∀ n : ℤ, RLOp.setBatchSize n ∉ ops) (t j : ℚ)
    (hrem : 2 ≤ (rl.max_calls_per_min : ℤ) - ((rl.evict t).calls.length : ℤ)) :
    rl.current_wait_time = 0 ∧ (rl.wait_if_needed true t j).waited = true ∧
      (rl.wait_if_needed true t j).sleep_seconds = 0 := by
  have hcwt : rl.current_wait_time = 0 := by
    rw [hrl, RateLimiter.runOps_cwt ops hops]
    rfl
  have hcwt2 : (rl.evict t).current_wait_time = 0 := hcwt
  have hn : ¬(((rl.evict t).max_calls_per_min : ℤ) - ((rl.evict t).calls.length : ℤ) ≤ 1) := by
    have hm : (rl.evict t).max_calls_per_min = rl.max_calls_per_min := rfl
    rw [hm]
    omega
  refine ⟨hcwt, ?_, ?_⟩
  · simp only [RateLimiter.wait_if_needed, Bool.true_or]
    rfl
  · simp only [RateLimiter.wait_if_needed, Bool.true_or]
    rw [if_pos trivial]
    show (if ((rl.evict t).max_calls_per_min : ℤ) - ((rl.evict t).calls.length : ℤ) ≤ 1 then
        max ((rl.evict t).current_wait_time * j) ((rl.evict t).window_size_sec * (1 / 4))
      else (rl.evict t).current_wait_time * j) = 0
    rw [if_neg hn, hcwt2, zero_mul]

/-- C10 witness: the fresh-limiter theorem evaluated on the constructor state
with cap 15, forced wait at time 0. -/
theorem fresh_limiter_zero_wait_witness :
    ((RateLimiter.init 15 60).runOps []).current_wait_time = 0 ∧
    (((RateLimiter.init 15 60).runOps []).wait_if_needed true 0 1).waited = true ∧
    (((RateLimiter.init 15 60).runOps []).wait_if_needed true 0 1).sleep_seconds = 0 :=
  fresh_limiter_zero_wait 15 60 [] _ rfl
    (fun n hn => List.not_mem_nil _ hn) 0 1 (by decide)

lemma rlC4_evict : rlC4.evict 0 = rlC4 := by
  unfold RateLimiter.evict
  have hp0 : decide (rlC4.window_size_sec < 0 - 0) = false := by
    rw [decide_eq_false_iff_not]
    show ¬((60 : ℚ) < 0 - 0)
    norm_num
  have hcalls : rlC4.calls.dropWhile (fun u => decide (rlC4.window_size_sec < 0 - u))
      = rlC4.calls := by
    show List.dropWhile (fun u => decide (rlC4.window_size_sec < 0 - u))
        (0 :: List.replicate 14 0) = 0 :: List.replicate 14 0
    rw [List.dropWhile_cons]
    simp only [hp0, Bool.false_eq_true, if_false]
  rw [hcalls]

/-- C4: `wait_if_needed` blocks exactly when forced, when fewer than 3 calls
remain under the cap after eviction, or when window utilization (the evicted
call count over the cap, as a percentage) is at least 80; every blocking call
sleeps for the nominal wait time scaled by the jitter draw, raised to at
least a quarter of the window when at most one call remains.  In particular
with cap 15 and 15 recorded in-window calls the next call blocks — whatever
the force flag and jitter — and sleeps at least a quarter of the window. -/
theorem wait_if_needed_blocking_spec (rl : RateLimiter) (f : Bool) (t j : ℚ) :
    ((rl.wait_if_needed f t j).waited =
      (f || decide ((((rl.evict t).max_calls_per_min : ℤ) -
            ((rl.evict t).calls.length : ℤ)) < 3) ||
       decide ((80 : ℚ) ≤ ((rl.evict t).calls.length : ℚ) /
            ((rl.evict t).max_calls_per_min : ℚ) * 100))) ∧
    ((rl.wait_if_needed f t j).waited = true →
      (rl.wait_if_needed f t j).sleep_seconds =
        (if ((rl.evict t).max_calls_per_min : ℤ) - ((rl.evict t).calls.length : ℤ) ≤ 1 then
          max ((rl.evict t).current_wait_time * j) ((rl.evict t).window_size_sec * (1 / 4))
        else (rl.evict t).current_wait_time * j)) ∧
    ((rlC4.wait_if_needed f 0 j).waited = true ∧
      rlC4.window_size_sec * (1 / 4) ≤ (rlC4.wait_if_needed f 0 j).sleep_seconds) := by
  refine ⟨?_, ?_, ?_⟩
  · rw [RateLimiter.waited_eq]
    by_cases hz : (rl.evict t).max_calls_per_min = 0
    · have hA : (((rl.evict t).max_calls_per_min : ℤ) - ((rl.evict t).calls.length : ℤ) < 3) := by
        rw [hz]
        omega
      rw [decide_eq_true hA]
      simp
    · have hpos : 0 < (rl.evict t).max_calls_per_min := Nat.pos_of_ne_zero hz
      rw [decide_eq_decide.mpr (utilization_cond_iff _ _ hpos)]
  · intro hw
    simp only [RateLimiter.wait_if_needed] at hw ⊢
    split at hw
    case isTrue hc =>
      rw [if_pos hc]
    case isFalse hc =>
      simp at hw
  · have hA : ((rlC4.max_calls_per_min : ℤ) - (rlC4.calls.length : ℤ) < 3) := by decide
    have hB : ((rlC4.max_calls_per_min : ℤ) - (rlC4.calls.length : ℤ) ≤ 1) := by decide
    constructor
    · simp only [RateLimiter.wait_if_needed, rlC4_evict, decide_eq_true hA, Bool.or_true,
        Bool.true_or]
      rfl
    · simp only [RateLimiter.wait_if_needed, rlC4_evict, decide_eq_true hA, Bool.or_true,
        Bool.true_or]
      rw [if_pos trivial, if_pos hB]
      exact le_max_right _ _

/-- C4 witness: the sleep-duration formula evaluated on the full-window
limiter with a forced wait at time 0 and jitter 1, discharging the blocking
hypothesis. -/
theorem wait_if_needed_blocking_spec_witness :
    (rlC4.wait_if_needed true 0 1).sleep_seconds =
      (if ((rlC4.evict 0).max_calls_per_min : ℤ) - ((rlC4.evict 0).calls.length : ℤ) ≤ 1 then
        max ((rlC4.evict 0).current_wait_time * 1) ((rlC4.evict 0).window_size_sec * (1 / 4))
      else (rlC4.evict 0).current_wait_time * 1) :=
  (wait_if_needed_blocking_spec rlC4 true 0 1).2.1 (by decide)

/-- C8: validation is total — embedded as a function it always returns an
outcome whose validity flag is exactly the emptiness of the error list, and
the error list is empty precisely when no required field is missing, the
invoice number passes the digit check, and no product carries a suspicious
sentinel numeric field. -/
theorem validate_extraction_total_iff (r : Candidate) (text patternName : String) :
    ((validate_extraction r text patternName).is_valid =
      decide ((validate_extraction r text patternName).errors = [])) ∧
    ((validate_extraction r text patternName).errors = [] ↔
      requiredFieldErrors r = [] ∧ invoiceNumberErrors r.invoice_number = [] ∧
      productListErrors r.products = []) := by
  constructor
  · simp only [validate_extraction]
    split
    case isTrue h => exact (decide_eq_true h).symm
    case isFalse h => exact (decide_eq_false h).symm
  · simp only [validate_extraction]
    rw [List.append_eq_nil, List.append_eq_nil, and_assoc]

/-- C1: `process_invoice` is embedded as a total function — every failure
mode of the source body is converted into a structured result record — and
the `error` key is present in the returned record exactly when `success` is
false. -/
theorem process_invoice_error_key_iff_failure (env : Env) (path : String) :
    (process_invoice env path).1.error.isSome = !(process_invoice env path).1.success := by
  rcases hext : env.extractText with e | text
  · simp only [process_invoice, hext]
    rfl
  · simp only [process_invoice, hext]
    split
    · rfl
    · cases h1 : (process_with_gemini env text (some (env.identify text)) 3 (some path) []).result
        with
      | some extracted => rfl
      | none =>
        dsimp only
        split
        · simp [noResultOutcome_error_isSome, noResultOutcome_success]
        · cases h3 : (process_with_gemini env text (some "generic_invoice") 3 (some path)
              (process_with_gemini env text (some (env.identify text)) 3
                (some path) []).failed).result with
          | some extracted => rfl
          | none =>
            simp [noResultOutcome_error_isSome, noResultOutcome_success]

/-- C3: when text extraction succeeds, the identified pattern is not the
generic one, and the first pass (attempt budget 3) produces no record,
`process_invoice` runs exactly one more pass with the generic pattern and a
fresh budget of 3 attempts — the fallback does not consume the original
budget — and then stops: the pass log is exactly those two passes. -/
theorem process_invoice_generic_fallback (env : Env) (path text : String)
    (hok : env.extractText = Except.ok text) (hne : ¬(pyStripStr text = ""))
    (hp : ¬(env.identify text = "generic_invoice"))
    (hfail : (process_with_gemini env text (some (env.identify text)) 3 (some path) []).result
      = none) :
    (process_invoice env path).2 = [(env.identify text, 3), ("generic_invoice", 3)] := by
  simp only [process_invoice, hok]
  rw [if_neg hne]
  simp only [hfail]
  rw [if_neg hp]
  cases h2 : (process_with_gemini env text (some "generic_invoice") 3 (some path)
      (process_with_gemini env text (some (env.identify text)) 3 (some path) []).failed).result
    <;> rfl

/-- C3 witness: an environment whose service always raises a non-throttling
error makes both passes fail, and the pass log shows the identified pattern
followed by the generic fallback, each with budget 3. -/
theorem process_invoice_generic_fallback_witness :
    (process_invoice envC3 "f.pdf").2 = [("pattern_a", 3), ("generic_invoice", 3)] :=
  process_invoice_generic_fallback envC3 "f.pdf" "text" rfl (by decide) (by decide) (by decide)

/-- C6 counterexample: a successful result whose product rate is
`₹1,2.3.4` — the final cleanup keeps commas, currency symbols and repeated
decimal points, so the stored value is not a string of digits with a single
decimal separator as the specification claims. -/
theorem numeric_fields_not_spec_normalized :
    (process_invoice envC6 "f.pdf").1.success = true ∧
    ∃ q ∈ (process_invoice envC6 "f.pdf").1.products.getD [],
      q.rate = some "₹1,2.3.4" ∧ specNumericNormalized "₹1,2.3.4" = false := by
  decide

/-- C6 (amended): in every successful result each product satisfies the
character-set invariant the code actually guarantees — the HSN/SAC code is
digits-only, absent, or the sentinel, the quantity holds only digits and
dots (or is absent or the sentinel), and rate and amount hold only digits,
dots, commas and currency symbols (or are absent or the sentinel); a single
decimal separator is not guaranteed. -/
theorem success_products_numeric_invariant (env : Env) (path : String) (ps : List Product)
    (hs : (process_invoice env path).1.success = true)
    (hps : (process_invoice env path).1.products = some ps) :
    ∀ q ∈ ps, productNumericInvariant q := by
  rcases hext : env.extractText with e | text
  · simp only [process_invoice, hext] at hs
    simp [failureResult] at hs
  · simp only [process_invoice, hext] at hs hps
    by_cases hempty : pyStripStr text = ""
    · rw [if_pos hempty] at hs
      simp [failureResult] at hs
    · rw [if_neg hempty] at hs hps
      cases h1 : (process_with_gemini env text (some (env.identify text)) 3 (some path) []).result
        with
      | some extracted =>
        rw [h1] at hps
        dsimp only at hps
        rcases process_with_gemini_result_shape env text _ 3 (some path) [] extracted h1 with
          ⟨r0, rfl⟩
        exact successResult_products_invariant env (env.identify text) text r0 ps hps
      | none =>
        rw [h1] at hs hps
        dsimp only at hs hps
        by_cases hgen : env.identify text = "generic_invoice"
        · rw [if_pos hgen] at hs
          simp [noResultOutcome_success] at hs
        · rw [if_neg hgen] at hs hps
          cases h2 : (process_with_gemini env text (some "generic_invoice") 3 (some path)
              (process_with_gemini env text (some (env.identify text)) 3
                (some path) []).failed).result with
          | some extracted =>
            rw [h2] at hps
            dsimp only at hps
            rcases process_with_gemini_result_shape env text _ 3 (some path) _ extracted h2 with
              ⟨r0, rfl⟩
            exact successResult_products_invariant env (env.identify text) text r0 ps hps
          | none =>
            rw [h2] at hs
            dsimp only at hs
            simp [noResultOutcome_success] at hs

/-- C6 witness: the amended invariant evaluated on the concrete successful
extraction of `envC6`, whose single product is the cleaned `productC6`. -/
theorem success_products_numeric_invariant_witness :
    productNumericInvariant (finalCleanProduct (post_process_product productC6)) :=
  success_products_numeric_invariant envC6 "f.pdf"
    [finalCleanProduct (post_process_product productC6)] (by decide) (by decide)
    (finalCleanProduct (post_process_product productC6)) (List.mem_singleton.mpr rfl)

end InvoiceAI
